import Mathlib

/-!
# cdncheck: the range scrapers of `ranges.go`

A shallow embedding of `src/ranges.go` (the per-provider scrapers, `makeReqWithAuth`
and `cidrRegex`) together with the parts of the Go standard library they call:
`regexp.FindAllString`, `http.NewRequest`, `http.Client.Do` / `Get`, `Header.Add` / `Set`
and `ioutil.ReadAll`.

Conventions of the embedding.

* A Go `error` that is not nil is a `GoError`; a possibly nil error is `Option GoError`.
* A Go slice is `Slice α = Option (List α)`: `none` is the nil slice, `some []` an empty
  slice that is not nil.
* Text is a list of characters.  The pattern only contains ASCII characters, and a byte
  of a multi-byte UTF-8 sequence is never an ASCII byte, so matching rune by rune and
  matching character by character agree.
* The network is explicit state: the `Wire` is the list of requests handed to the
  transport so far, in order.  The transport itself is a function of the request; every
  scraper sends pairwise different requests, so nothing is lost by that.
-/

/-! ## Go values -/

/-- A Go error value that is not nil. -/
structure GoError where
  msg : String
  deriving DecidableEq, Repr

/-- A Go slice: `none` is the nil slice. -/
abbrev Slice (α : Type) := Option (List α)

/-- The elements a `range` loop over the slice visits. -/
def Slice.elems {α : Type} : Slice α → List α
  | none => []
  | some l => l

/-! ## `regexp`: syntax, backtracking search, `FindAllString` -/

/-- The fragment of Go regular expressions used by `cidrRegex`, after the simplification
pass of `regexp/syntax` (a counted repetition is already expanded, see `repeatRange`). -/
inductive Regexp where
  | emptyMatch : Regexp
  | literal (c : Char) : Regexp
  | charClass (lo hi : Char) : Regexp
  | concat (a b : Regexp) : Regexp
  | quest (a : Regexp) : Regexp

namespace Regexp

/-- All ways in which `r` matches at the start of the text, in the order of preference of
Go's leftmost-first semantics; each way is given by the text left over after the match.
A greedy `quest` prefers to match its operand. -/
def run : Regexp → List Char → List (List Char)
  | emptyMatch, s => [s]
  | literal _, [] => []
  | literal x, c :: s => if c = x then [s] else []
  | charClass _ _, [] => []
  | charClass lo hi, c :: s => if lo ≤ c ∧ c ≤ hi then [s] else []
  | concat a b, s => (a.run s).flatMap b.run
  | quest a, s => a.run s ++ [s]

/-- The nested optional tail of a counted repetition: `x(x(x)?)?` for three copies. -/
def nestQuest (r : Regexp) : Nat → Regexp
  | 0 => emptyMatch
  | 1 => quest r
  | n + 2 => quest (concat r (nestQuest r (n + 1)))

/-- The text `r` repeated `n` times, followed by `tail`. -/
def copies (r : Regexp) : Nat → Regexp → Regexp
  | 0, tail => tail
  | n + 1, tail => concat r (copies r n tail)

/-- The expansion of `x{min,max}` done by `regexp/syntax`: `min` copies of `x` followed by
`max - min` nested optional copies, so that `x{2,5}` is `xx(x(x(x)?)?)?`. -/
def repeatRange (r : Regexp) (min max : Nat) : Regexp :=
  copies r min (nestQuest r (max - min))

/-- A concatenation of several pieces. -/
def seqOf : List Regexp → Regexp
  | [] => emptyMatch
  | [r] => r
  | r :: rs => concat r (seqOf rs)

/-- The preferred match anchored at the start of the text: the matched text and the rest. -/
def matchAt (r : Regexp) (s : List Char) : Option (List Char × List Char) :=
  match r.run s with
  | rest :: _ => some (s.take (s.length - rest.length), rest)
  | [] => none

/-- The search of `doExecute` from the current position: the leftmost position at which
the pattern matches.  The result is the text skipped, the matched text and the rest. -/
def find (r : Regexp) : List Char → Option (List Char × List Char × List Char)
  | [] => match r.matchAt [] with
    | some (m, rest) => some ([], m, rest)
    | none => none
  | c :: t => match r.matchAt (c :: t) with
    | some (m, rest) => some ([], m, rest)
    | none => match find r t with
      | some (skipped, m, rest) => some (c :: skipped, m, rest)
      | none => none

/-- Moving the position forward by one rune; `none` is the position past the end. -/
def advance : List Char → Option (List Char)
  | [] => none
  | _ :: t => some t

/-- The loop of `Regexp.allMatches`.  `n` is the number of matches still allowed (`n - i`
in Go), the position is the text from `pos` on (`none` once `pos > end`), and `prevHere`
says that the previous match ended at `pos`.  An empty match at `pos` is dropped when the
previous match ended there, and the position then moves one rune forward.  The first
argument bounds the number of iterations. -/
def allMatches (r : Regexp) : Nat → Nat → Option (List Char) → Bool → List (List Char)
  | 0, _, _, _ => []
  | fuel + 1, n, pos, prevHere =>
    if n = 0 then [] else
    match pos with
    | none => []
    | some s =>
      match r.find s with
      | none => []
      | some (skipped, m, rest) =>
        if skipped = [] ∧ m = [] then
          if prevHere then allMatches r fuel n (advance s) false
          else [] :: allMatches r fuel (n - 1) (advance s) false
        else m :: allMatches r fuel (n - 1) (some rest) true

/-- Go's `FindAllString(s, n)`: a negative `n` stands for `len(s) + 1`; the result is the
nil slice when nothing was delivered.  Every iteration of the loop moves the position
forward, so `2 * len(s) + 2` iterations are never exhausted. -/
def FindAllString (re : Regexp) (s : String) (n : Int) : Slice String :=
  let n := if n < 0 then s.length + 1 else n.toNat
  match re.allMatches (2 * s.length + 2) n (some s.toList) false with
  | [] => none
  | m :: ms => some ((m :: ms).map String.mk)

end Regexp

/-- The piece `[0-9]{1,3}`. -/
def digits13 : Regexp := .repeatRange (.charClass '0' '9') 1 3

/-- Line 13 of `ranges.go`:
`[0-9]{1,3}\.[0-9]{1,3}\.[0-9]{1,3}\.[0-9]{1,3}\/[0-9]{1,3}`. -/
def cidrRegex : Regexp :=
  .seqOf [digits13, .literal '.', digits13, .literal '.', digits13, .literal '.', digits13,
    .literal '/', digits13]

/-! ## `net/http` -/

/-- An outgoing request.  The header is the list of its entries in the order they were
added (both keys used in `ranges.go` are already in canonical form). -/
structure Request where
  Method : String
  URL : String
  Header : List (String × String)
  Body : Option String
  deriving DecidableEq, Repr

/-- A delivered response: the status line and what reading the body to its end gives. -/
structure Response where
  StatusCode : Nat
  Body : Except GoError String

/-- The part of `*http.Client` the scrapers use: the round trip of one request.  A
response with a status outside 2xx is a response, not an error. -/
structure Client where
  transport : Request → Except GoError Response

/-- The checks of `http.NewRequest` (method token, URL parsing), which live in the
standard library: `requestError method url` is the error it reports, if any. -/
structure NetHttp where
  requestError : String → String → Option GoError

/-- Modelled from the spec: the type `Options` is declared outside `ranges.go`; the
scrapers read its field `IPInfoToken` only (the spec's per-provider bearer credential). -/
structure Options where
  IPInfoToken : String

/-- The requests handed to the transport so far. -/
abbrev Wire := List Request

/-- What a scraper returns, and the wire after it ran. -/
structure Outcome where
  cidrs : Slice String
  err : Option GoError
  wire : Wire

/-- The call `httpClient.Do(req)`. -/
def Client.Do (c : Client) (req : Request) (wire : Wire) : Except GoError Response × Wire :=
  (c.transport req, wire ++ [req])

/-- The call `httpClient.Get(url)`: a GET request without header or body, handed to the
transport.  The standard library builds that request itself; the URLs passed in
`ranges.go` are constants that parse, so the only failure is the one of the round trip. -/
def Client.Get (c : Client) (url : String) (wire : Wire) : Except GoError Response × Wire :=
  c.Do { Method := "GET", URL := url, Header := [], Body := none } wire

/-- The call `http.NewRequest(method, url, body)`. -/
def NetHttp.NewRequest (http : NetHttp) (method url : String) (body : Option String) :
    Except GoError Request :=
  let method := if method = "" then "GET" else method
  match http.requestError method url with
  | some err => .error err
  | none => .ok { Method := method, URL := url, Header := [], Body := body }

/-- The call `req.Header.Add(key, value)`: one more entry. -/
def Request.headerAdd (req : Request) (key value : String) : Request :=
  { req with Header := req.Header ++ [(key, value)] }

/-- The call `req.Header.Set(key, value)`: the entry replaces those of the same key. -/
def Request.headerSet (req : Request) (key value : String) : Request :=
  { req with Header := req.Header.filter (fun kv => kv.1 ≠ key) ++ [(key, value)] }

/-- The call `ioutil.ReadAll(resp.Body)`. -/
def ReadAll (body : Except GoError String) : Except GoError String := body

/-! ## `ranges.go` -/

/-- The function `scrapeAzure`. -/
def scrapeAzure (httpClient : Client) (wire : Wire) : Outcome :=
  match httpClient.Get
    "https://download.microsoft.com/download/0/1/8/018E208D-54F8-44CD-AA26-CD7BC9524A8C/PublicIPs_20200824.xml"
    wire with
  | (.error err, wire) => ⟨none, some err, wire⟩
  | (.ok resp, wire) =>
    match ReadAll resp.Body with
    | .error err => ⟨none, some err, wire⟩
    | .ok data =>
      let body := data
      let cidrs := cidrRegex.FindAllString body (-1)
      ⟨cidrs, none, wire⟩

/-- The function `scrapeCloudFront`. -/
def scrapeCloudFront (httpClient : Client) (wire : Wire) : Outcome :=
  match httpClient.Get "https://d7uri8nf7uskq.cloudfront.net/tools/list-cloudfront-ips" wire with
  | (.error err, wire) => ⟨none, some err, wire⟩
  | (.ok resp, wire) =>
    match ReadAll resp.Body with
    | .error err => ⟨none, some err, wire⟩
    | .ok data =>
      let body := data
      let cidrs := cidrRegex.FindAllString body (-1)
      ⟨cidrs, none, wire⟩

/-- The function `scrapeCloudflare`. -/
def scrapeCloudflare (httpClient : Client) (wire : Wire) : Outcome :=
  match httpClient.Get "https://www.cloudflare.com/ips-v4" wire with
  | (.error err, wire) => ⟨none, some err, wire⟩
  | (.ok resp, wire) =>
    match ReadAll resp.Body with
    | .error err => ⟨none, some err, wire⟩
    | .ok data =>
      let body := data
      let cidrs := cidrRegex.FindAllString body (-1)
      ⟨cidrs, none, wire⟩

/-- The function `scrapeIncapsula`. -/
def scrapeIncapsula (http : NetHttp) (httpClient : Client) (wire : Wire) : Outcome :=
  match http.NewRequest "POST" "https://my.incapsula.com/api/integration/v1/ips"
      (some "resp_format=text") with
  | .error err => ⟨none, some err, wire⟩
  | .ok req =>
    let req := req.headerSet "Content-Type" "application/x-www-form-urlencoded"
    match httpClient.Do req wire with
    | (.error err, wire) => ⟨none, some err, wire⟩
    | (.ok resp, wire) =>
      match ReadAll resp.Body with
      | .error err => ⟨none, some err, wire⟩
      | .ok data =>
        let body := data
        let cidrs := cidrRegex.FindAllString body (-1)
        ⟨cidrs, none, wire⟩

/-- The function `makeReqWithAuth`.  The request is always built with `http.MethodGet`;
the parameter `method` is not read. -/
def makeReqWithAuth (http : NetHttp) (_method URL headerName bearerValue : String) :
    Except GoError Request :=
  match http.NewRequest "GET" URL none with
  | .error err => .error err
  | .ok req => .ok (req.headerAdd headerName ("Bearer " ++ bearerValue))

/-- The function `scrapeAkamai`. -/
def scrapeAkamai (http : NetHttp) (httpClient : Client) (options : Options) (wire : Wire) :
    Outcome :=
  match makeReqWithAuth http "GET" "https://ipinfo.io/AS12222" "Authorization"
      ("Bearer " ++ options.IPInfoToken) with
  | .error err => ⟨none, some err, wire⟩
  | .ok req =>
    match httpClient.Do req wire with
    | (.error err, wire) => ⟨none, some err, wire⟩
    | (.ok resp, wire) =>
      match ReadAll resp.Body with
      | .error err => ⟨none, some err, wire⟩
      | .ok data =>
        let body := data
        let cidrs := cidrRegex.FindAllString body (-1)
        ⟨cidrs, none, wire⟩

/-- The function `scrapeSucuri`. -/
def scrapeSucuri (http : NetHttp) (httpClient : Client) (options : Options) (wire : Wire) :
    Outcome :=
  match makeReqWithAuth http "GET" "https://ipinfo.io/AS30148" "Authorization"
      ("Bearer " ++ options.IPInfoToken) with
  | .error err => ⟨none, some err, wire⟩
  | .ok req =>
    match httpClient.Do req wire with
    | (.error err, wire) => ⟨none, some err, wire⟩
    | (.ok resp, wire) =>
      match ReadAll resp.Body with
      | .error err => ⟨none, some err, wire⟩
      | .ok data =>
        let body := data
        let cidrs := cidrRegex.FindAllString body (-1)
        ⟨cidrs, none, wire⟩

/-- The function `scrapeFastly`. -/
def scrapeFastly (httpClient : Client) (wire : Wire) : Outcome :=
  match httpClient.Get "https://api.fastly.com/public-ip-list" wire with
  | (.error err, wire) => ⟨none, some err, wire⟩
  | (.ok resp, wire) =>
    match ReadAll resp.Body with
    | .error err => ⟨none, some err, wire⟩
    | .ok data =>
      let body := data
      let cidrs := cidrRegex.FindAllString body (-1)
      ⟨cidrs, none, wire⟩

/-- The function `scrapeLeaseweb`. -/
def scrapeLeaseweb (http : NetHttp) (httpClient : Client) (options : Options) (wire : Wire) :
    Outcome :=
  match makeReqWithAuth http "GET" "https://ipinfo.io/AS60626" "Authorization"
      ("Bearer " ++ options.IPInfoToken) with
  | .error err => ⟨none, some err, wire⟩
  | .ok req =>
    match httpClient.Do req wire with
    | (.error err, wire) => ⟨none, some err, wire⟩
    | (.ok resp, wire) =>
      match ReadAll resp.Body with
      | .error err => ⟨none, some err, wire⟩
      | .ok data =>
        let body := data
        let cidrs := cidrRegex.FindAllString body (-1)
        ⟨cidrs, none, wire⟩

/-- A Go `map[string][]string`; `none` is the nil map. -/
abbrev ProviderMap := Option (List (String × List String))

/-- What `scrapeProjectDiscovery` returns, and the wire after it ran. -/
structure FeedOutcome where
  data : ProviderMap
  err : Option GoError
  wire : Wire

/-- The function `scrapeProjectDiscovery`.  `decode` stands for
`jsoniter.NewDecoder(resp.Body).Decode(&data)`: from the body stream to the decoded
value of `data`, or the error of the decoder. -/
def scrapeProjectDiscovery (decode : Except GoError String → Except GoError ProviderMap)
    (httpClient : Client) (wire : Wire) : FeedOutcome :=
  match httpClient.Get "https://cdn.nuclei.sh" wire with
  | (.error err, wire) => ⟨none, some err, wire⟩
  | (.ok resp, wire) =>
    match decode resp.Body with
    | .error err => ⟨none, some err, wire⟩
    | .ok data => ⟨data, none, wire⟩

/-- The function `scrapeAzion`. -/
def scrapeAzion (http : NetHttp) (httpClient : Client) (options : Options) (wire : Wire) :
    Outcome :=
  match makeReqWithAuth http "GET" "https://ipinfo.io/AS52580" "Authorization"
      ("Bearer " ++ options.IPInfoToken) with
  | .error err => ⟨none, some err, wire⟩
  | .ok req =>
    match httpClient.Do req wire with
    | (.error err, wire) => ⟨none, some err, wire⟩
    | (.ok resp, wire) =>
      match ReadAll resp.Body with
      | .error err => ⟨none, some err, wire⟩
      | .ok data =>
        let body := data
        let cidrs := cidrRegex.FindAllString body (-1)
        ⟨cidrs, none, wire⟩

/-- The loop `for _, asn := range ASNlist` shared, word for word, by `scrapeStackPath`,
`scrapeEdgeCast` and `scrapeLimeLight`: `cidrs` is the slice built so far, and the inner
loop appends the matches one by one. -/
def rangeASNlist (http : NetHttp) (httpClient : Client) (options : Options) :
    List String → List String → Wire → Outcome
  | [], cidrs, wire => ⟨some cidrs, none, wire⟩
  | asn :: later, cidrs, wire =>
    let ipinfourl := "https://ipinfo.io/" ++ asn
    match makeReqWithAuth http "GET" ipinfourl "Authorization"
        ("Bearer " ++ options.IPInfoToken) with
    | .error err => ⟨none, some err, wire⟩
    | .ok req =>
      match httpClient.Do req wire with
      | (.error err, wire) => ⟨none, some err, wire⟩
      | (.ok resp, wire) =>
        match ReadAll resp.Body with
        | .error err => ⟨none, some err, wire⟩
        | .ok data =>
          let body := data
          let cidrs := (cidrRegex.FindAllString body (-1)).elems.foldl
            (fun cidrs cidr => cidrs ++ [cidr]) cidrs
          rangeASNlist http httpClient options later cidrs wire

/-- The function `scrapeStackPath`. -/
def scrapeStackPath (http : NetHttp) (httpClient : Client) (options : Options) (wire : Wire) :
    Outcome :=
  let cidrs : List String := []
  let ASNlist := ["AS33438", "AS20446", "AS199156", "AS18607", "AS12989"]
  rangeASNlist http httpClient options ASNlist cidrs wire

/-- The function `scrapeEdgeCast`. -/
def scrapeEdgeCast (http : NetHttp) (httpClient : Client) (options : Options) (wire : Wire) :
    Outcome :=
  let cidrs : List String := []
  let ASNlist := ["AS15133", "AS14210", "AS14153"]
  rangeASNlist http httpClient options ASNlist cidrs wire

/-- The function `scrapeLimeLight`. -/
def scrapeLimeLight (http : NetHttp) (httpClient : Client) (options : Options) (wire : Wire) :
    Outcome :=
  let cidrs : List String := []
  let ASNlist := ["AS60261", "AS55429", "AS45396", "AS38622", "AS37277", "AS26506", "AS25804",
    "AS23059", "AS22822"]
  rangeASNlist http httpClient options ASNlist cidrs wire

/-! ## The scrapers as a family -/

/-- The nine scrapers that send one request and run `cidrRegex` over the body. -/
inductive SingleScraper where
  | azure | cloudFront | cloudflare | incapsula | fastly | akamai | sucuri | leaseweb | azion
  deriving DecidableEq, Repr

/-- The three scrapers that walk a list of AS numbers. -/
inductive MultiScraper where
  | stackPath | edgeCast | limeLight
  deriving DecidableEq, Repr

/-- A scraper based on `cidrRegex`. -/
inductive RegexScraper where
  | single (s : SingleScraper)
  | multi (m : MultiScraper)
  deriving DecidableEq, Repr

/-- Running a single-request scraper. -/
def SingleScraper.run (sc : SingleScraper) (http : NetHttp) (httpClient : Client)
    (options : Options) (wire : Wire) : Outcome :=
  match sc with
  | .azure => scrapeAzure httpClient wire
  | .cloudFront => scrapeCloudFront httpClient wire
  | .cloudflare => scrapeCloudflare httpClient wire
  | .incapsula => scrapeIncapsula http httpClient wire
  | .fastly => scrapeFastly httpClient wire
  | .akamai => scrapeAkamai http httpClient options wire
  | .sucuri => scrapeSucuri http httpClient options wire
  | .leaseweb => scrapeLeaseweb http httpClient options wire
  | .azion => scrapeAzion http httpClient options wire

/-- Running a multi-ASN scraper. -/
def MultiScraper.run (sc : MultiScraper) (http : NetHttp) (httpClient : Client)
    (options : Options) (wire : Wire) : Outcome :=
  match sc with
  | .stackPath => scrapeStackPath http httpClient options wire
  | .edgeCast => scrapeEdgeCast http httpClient options wire
  | .limeLight => scrapeLimeLight http httpClient options wire

/-- Running a scraper based on `cidrRegex`. -/
def RegexScraper.run (sc : RegexScraper) (http : NetHttp) (httpClient : Client)
    (options : Options) (wire : Wire) : Outcome :=
  match sc with
  | .single s => s.run http httpClient options wire
  | .multi m => m.run http httpClient options wire

/-! ## Specification side -/

/-- The endpoint each single-request scraper is documented to query. -/
def SingleScraper.url : SingleScraper → String
  | .azure =>
    "https://download.microsoft.com/download/0/1/8/018E208D-54F8-44CD-AA26-CD7BC9524A8C/PublicIPs_20200824.xml"
  | .cloudFront => "https://d7uri8nf7uskq.cloudfront.net/tools/list-cloudfront-ips"
  | .cloudflare => "https://www.cloudflare.com/ips-v4"
  | .incapsula => "https://my.incapsula.com/api/integration/v1/ips"
  | .fastly => "https://api.fastly.com/public-ip-list"
  | .akamai => "https://ipinfo.io/AS12222"
  | .sucuri => "https://ipinfo.io/AS30148"
  | .leaseweb => "https://ipinfo.io/AS60626"
  | .azion => "https://ipinfo.io/AS52580"

/-- The request method of each single-request scraper. -/
def SingleScraper.method : SingleScraper → String
  | .incapsula => "POST"
  | _ => "GET"

/-- The request body of each single-request scraper. -/
def SingleScraper.payload : SingleScraper → Option String
  | .incapsula => some "resp_format=text"
  | _ => none

/-- The AS numbers each multi-ASN scraper is documented to walk, in order. -/
def MultiScraper.asns : MultiScraper → List String
  | .stackPath => ["AS33438", "AS20446", "AS199156", "AS18607", "AS12989"]
  | .edgeCast => ["AS15133", "AS14210", "AS14153"]
  | .limeLight => ["AS60261", "AS55429", "AS45396", "AS38622", "AS37277", "AS26506", "AS25804",
      "AS23059", "AS22822"]

/-- The ipinfo page of an AS number. -/
def ipinfoURL (asn : String) : String := "https://ipinfo.io/" ++ asn

/-- One request of a scraper seen from outside: building the request, the round trip and
reading the body, with the first failure as the result. -/
def fetchBody (built : Except GoError Request) (c : Client) : Except GoError String :=
  match built with
  | .error e => .error e
  | .ok req =>
    match c.transport req with
    | .error e => .error e
    | .ok resp => resp.Body

/-- What one round of a multi-ASN scraper obtains for an AS number. -/
def asnFetch (http : NetHttp) (c : Client) (options : Options) (asn : String) :
    Except GoError String :=
  fetchBody (makeReqWithAuth http "GET" (ipinfoURL asn) "Authorization"
    ("Bearer " ++ options.IPInfoToken)) c

/-- The request `makeReqWithAuth` hands back for an AS number, as the scrapers call it,
when the standard library accepts the URL. -/
def ipinfoRequest (options : Options) (asn : String) : Request :=
  { Method := "GET", URL := ipinfoURL asn,
    Header := [("Authorization", "Bearer " ++ ("Bearer " ++ options.IPInfoToken))],
    Body := none }

/-- A single request followed by the extraction, as one function of the built request. -/
def fetchOnce (built : Except GoError Request) (c : Client) (wire : Wire) : Outcome :=
  match built with
  | .error e => ⟨none, some e, wire⟩
  | .ok req =>
    match c.transport req with
    | .error e => ⟨none, some e, wire ++ [req]⟩
    | .ok resp =>
      match resp.Body with
      | .error e => ⟨none, some e, wire ++ [req]⟩
      | .ok b => ⟨cidrRegex.FindAllString b (-1), none, wire ++ [req]⟩

/-- The request each single-request scraper builds. -/
def SingleScraper.built (sc : SingleScraper) (http : NetHttp) (options : Options) :
    Except GoError Request :=
  match sc with
  | .incapsula =>
    match http.NewRequest "POST" "https://my.incapsula.com/api/integration/v1/ips"
        (some "resp_format=text") with
    | .error e => .error e
    | .ok req => .ok (req.headerSet "Content-Type" "application/x-www-form-urlencoded")
  | .akamai | .sucuri | .leaseweb | .azion =>
    makeReqWithAuth http "GET" sc.url "Authorization" ("Bearer " ++ options.IPInfoToken)
  | .azure | .cloudFront | .cloudflare | .fastly =>
    .ok { Method := "GET", URL := sc.url, Header := [], Body := none }

/-- A decimal digit. -/
def IsDecimalDigit (c : Char) : Prop := '0' ≤ c ∧ c ≤ '9'

/-- One to three decimal digits. -/
def IsDigitGroup (g : List Char) : Prop :=
  1 ≤ g.length ∧ g.length ≤ 3 ∧ ∀ c ∈ g, IsDecimalDigit c

/-- The pattern in words: one to three digits, dot, one to three digits, dot, one to
three digits, dot, one to three digits, slash, one to three digits. -/
def IsCidrText (m : List Char) : Prop :=
  ∃ a b c d p, IsDigitGroup a ∧ IsDigitGroup b ∧ IsDigitGroup c ∧ IsDigitGroup d ∧
    IsDigitGroup p ∧ m = a ++ '.' :: (b ++ '.' :: (c ++ '.' :: (d ++ '/' :: p)))

/-- The list of all successive non-overlapping leftmost matches of `P` in a text, in
order of occurrence: either the text has no match at all, or the first entry is the match
that starts leftmost (and, repetitions being greedy, is the longest one starting there)
and the other entries are the successive matches of the text after it. -/
inductive SuccessiveMatches (P : List Char → Prop) : List Char → List (List Char) → Prop where
  | done (s : List Char) :
      (∀ pre m post, s = pre ++ m ++ post → ¬ P m) → SuccessiveMatches P s []
  | next (s pre m post : List Char) (later : List (List Char)) :
      s = pre ++ m ++ post →
      P m →
      (∀ pre2 m2 post2, s = pre2 ++ m2 ++ post2 → P m2 → pre.length ≤ pre2.length) →
      (∀ m2 post2, m ++ post = m2 ++ post2 → P m2 → m2.length ≤ m.length) →
      SuccessiveMatches P post later →
      SuccessiveMatches P s (m :: later)

/-- The shape of a yielded string, property by property. -/
structure CidrShaped (s : String) : Prop where
  shape : IsCidrText s.toList
  minLength : 9 ≤ s.length
  maxLength : s.length ≤ 19
  alphabet : ∀ c ∈ s.toList, IsDecimalDigit c ∨ c = '.' ∨ c = '/'
  dots : s.toList.count '.' = 3
  slashes : s.toList.count '/' = 1
  noColon : ':' ∉ s.toList
  noSpace : ∀ c ∈ s.toList, c.isWhitespace = false

/-- The texts between the occurrences of a separator. -/
def splitAt (sep : Char) : List Char → List (List Char)
  | [] => [[]]
  | c :: t =>
    if c = sep then [] :: splitAt sep t
    else match splitAt sep t with
      | [] => [[c]]
      | g :: gs => (c :: g) :: gs

/-- The number written by a list of decimal digits. -/
def decimalValue (ds : List Char) : Nat :=
  ds.foldl (fun acc c => 10 * acc + (c.toNat - 48)) 0

/-- A text made of at least one decimal digit, with a value of at most `bound`. -/
def isNumberUpTo (bound : Nat) (ds : List Char) : Bool :=
  !ds.isEmpty && ds.all Char.isDigit && decide (decimalValue ds ≤ bound)

/-- Valid IPv4 CIDR notation: four dotted octets of at most 255, a slash and a length of
at most 32. -/
def isValidIPv4Cidr (s : String) : Bool :=
  match splitAt '/' s.toList with
  | [addr, len] =>
    match splitAt '.' addr with
    | [a, b, c, d] =>
      isNumberUpTo 255 a && isNumberUpTo 255 b && isNumberUpTo 255 c && isNumberUpTo 255 d &&
        isNumberUpTo 32 len
    | _ => false
  | _ => false

/-- A transport that answers every request with the given status and body. -/
def answering (status : Nat) (body : String) : Client :=
  ⟨fun _ => .ok ⟨status, .ok body⟩⟩

/-- A standard library that accepts every method and URL. -/
def acceptAll : NetHttp := ⟨fun _ _ => none⟩

/-- A transport that answers the given URL with the given status and page, and every
other request with status 200 and the body `other`. -/
def answeringAt (url : String) (status : Nat) (page other : String) : Client :=
  ⟨fun req => if req.URL = url then .ok ⟨status, .ok page⟩ else .ok ⟨200, .ok other⟩⟩

/-- What the requests of a scraper obtain, one entry per request it is written to send:
the body read, or the first failure on the way to it. -/
def RegexScraper.fetches (sc : RegexScraper) (http : NetHttp) (c : Client) (options : Options) :
    List (Except GoError String) :=
  match sc with
  | .single s => [fetchBody (s.built http options) c]
  | .multi m => m.asns.map (asnFetch http c options)

/-- A transport that fails for the given URL and answers every other request. -/
def failingAt (url : String) (e : GoError) (body : String) : Client :=
  ⟨fun req => if req.URL = url then .error e else .ok ⟨200, .ok body⟩⟩

/-! ## Proof-side notions for the matcher -/

namespace Regexp

/-- The texts matched by a pattern as a whole. -/
def Lang : Regexp → List Char → Prop
  | emptyMatch, m => m = []
  | literal x, m => m = [x]
  | charClass lo hi, m => ∃ c, m = [c] ∧ lo ≤ c ∧ c ≤ hi
  | concat a b, m => ∃ m1 m2, m = m1 ++ m2 ∧ Lang a m1 ∧ Lang b m2
  | quest a, m => Lang a m ∨ m = []

/-- Rests of strictly growing length: the matches come longest first. -/
def Desc (l : List (List Char)) : Prop := l.Pairwise (fun a b => a.length < b.length)

/-- At most one way to match at any text. -/
def Det (r : Regexp) : Prop := ∀ s, (r.run s).length ≤ 1

/-- The matches at any text come longest first. -/
def DescAll (r : Regexp) : Prop := ∀ s, Desc (r.run s)

/-- Continuing with `r` keeps the rests in growing order. -/
def Mono (r : Regexp) : Prop := ∀ l, Desc l → Desc (l.flatMap r.run)

/-- The pattern consumes exactly one character, in at most one way. -/
def OneStep (r : Regexp) : Prop := ∀ s, r.run s = [] ∨ (s ≠ [] ∧ r.run s = [s.tail])

end Regexp

/-! ## The resolver

`Check`, `New` and `NewWithCache` are called by `teste.go` and live outside the given
sources; what follows is their contract as the spec words it. -/

/-- Modelled from the spec: the address family of a CIDRBlock (section 3); the resolver
sources are not among the given files. -/
inductive Family where
  | v4 | v6
  deriving DecidableEq, Repr

/-- The width of an address: 32 bits for v4, 128 for v6. -/
def Family.bits : Family → Nat
  | .v4 => 32
  | .v6 => 128

/-- Modelled from the spec: a parsed IP address of `Check(ip)`, as its family and its
value read as a number; the resolver sources are not among the given files. -/
structure IPAddr where
  family : Family
  value : Nat
  deriving DecidableEq, Repr

/-- Modelled from the spec: a CIDRBlock of section 3, a network address and a length of
the network part, of a fixed address family; the resolver sources are not among the
given files. -/
structure CIDRBlock where
  family : Family
  network : Nat
  maskBits : Nat
  deriving DecidableEq, Repr

/-- The number of host bits of a block. -/
def CIDRBlock.hostBits (b : CIDRBlock) : Nat := b.family.bits - b.maskBits

/-- Modelled from the spec: the invariant of a CIDRBlock in section 3: the length lies in
the range of the family and the network address has its host bits zeroed. -/
def CIDRBlock.WellFormed (b : CIDRBlock) : Prop :=
  b.maskBits ≤ b.family.bits ∧ b.network < 2 ^ b.family.bits ∧ b.network % 2 ^ b.hostBits = 0

/-- The last address of the block. -/
def CIDRBlock.lastAddress (b : CIDRBlock) : Nat := b.network + 2 ^ b.hostBits - 1

/-- Modelled from the spec: a ProviderRangeSet of section 3, the blocks of one provider. -/
structure ProviderRangeSet where
  name : String
  blocks : List CIDRBlock

/-- Modelled from the spec: an AggregateSnapshot of section 3, the data loaded by `New` or
`NewWithCache`. -/
structure AggregateSnapshot where
  providers : List ProviderRangeSet

/-- Modelled from the spec: the two errors section 7 lets `Check` surface. -/
inductive ResolverError where
  | NoDataAvailable | InvalidAddress
  deriving DecidableEq, Repr

/-- Modelled from the spec: the merged view of section 4.2, the blocks of all providers,
overlapping blocks of different providers all retained. -/
def AggregateSnapshot.blocks (snap : AggregateSnapshot) : List CIDRBlock :=
  snap.providers.flatMap (fun p => p.blocks)

/-- Modelled from the spec: the order of the sorted blocks of section 4.1, by network
address; blocks of one network address are ordered by length. -/
def CIDRBlock.before (a b : CIDRBlock) : Prop :=
  a.network < b.network ∨ (a.network = b.network ∧ a.maskBits ≤ b.maskBits)

/-- The order of the sorted blocks can be computed. -/
instance CIDRBlock.decidableBefore : DecidableRel CIDRBlock.before :=
  fun a b => inferInstanceAs
    (Decidable (a.network < b.network ∨ (a.network = b.network ∧ a.maskBits ≤ b.maskBits)))

/-- Modelled from the spec: the blocks of one address family, sorted by network address
(section 4.1). -/
def AggregateSnapshot.sorted (snap : AggregateSnapshot) (fam : Family) : List CIDRBlock :=
  (snap.blocks.filter (fun b => b.family = fam)).insertionSort CIDRBlock.before

/-- The interval of a given length whose range could contain the address: the address
with its host bits zeroed, at that length. -/
def IPAddr.blockOfLength (ip : IPAddr) (len : Nat) : CIDRBlock :=
  ⟨ip.family, ip.value / 2 ^ (ip.family.bits - len) * 2 ^ (ip.family.bits - len), len⟩

/-- Modelled from the spec: the binary search of section 4.1 in the sorted blocks, between
the positions `lo` (included) and `hi` (excluded), for a block with the network address
and the length of `target`.  The first argument bounds the number of halvings. -/
def binarySearch (blocks : List CIDRBlock) (target : CIDRBlock) : Nat → Nat → Nat → Bool
  | 0, _, _ => false
  | fuel + 1, lo, hi =>
    if lo < hi then
      match blocks[(lo + hi) / 2]? with
      | none => false
      | some b =>
        if b.network = target.network ∧ b.maskBits = target.maskBits then true
        else if b.before target then binarySearch blocks target fuel ((lo + hi) / 2 + 1) hi
        else binarySearch blocks target fuel lo ((lo + hi) / 2)
    else false

/-- Modelled from the spec: the containment test of section 4.1 on the aggregate.  The
blocks of the family of the address are sorted by network address, and for each length
the interval whose range could contain the address is looked up by binary search; a hit
is a stored block whose network part the address fits. -/
def AggregateSnapshot.Contains (snap : AggregateSnapshot) (ip : IPAddr) : Bool :=
  (List.range (ip.family.bits + 1)).any (fun len =>
    binarySearch (snap.sorted ip.family) (ip.blockOfLength len)
      ((snap.sorted ip.family).length + 1) 0 (snap.sorted ip.family).length)

/-- Modelled from the spec: `Check(ip)` of section 4.4, which lives outside the given
sources, with the two results of the Go signature `(bool, error)`.  It fails with
`InvalidAddress` when the address did not parse and with `NoDataAvailable`, and no match,
when no data is available (nothing was ever loaded, or what was loaded holds no block:
sections 4.4, 7 and 8); otherwise it reports, without error, whether the address falls
within a block of some provider of the snapshot. -/
def Check (snapshot : Option AggregateSnapshot) (ip : Option IPAddr) :
    Bool × Option ResolverError :=
  match ip with
  | none => (false, some .InvalidAddress)
  | some ip =>
    match snapshot with
    | none => (false, some .NoDataAvailable)
    | some snap =>
      if snap.blocks.isEmpty then (false, some .NoDataAvailable)
      else (snap.Contains ip, none)

/-- The address lies in the range of the block, from its network address through its last
address. -/
def CIDRBlock.InRange (b : CIDRBlock) (ip : IPAddr) : Prop :=
  b.family = ip.family ∧ b.network ≤ ip.value ∧ ip.value ≤ b.lastAddress

/-- Two blocks with the same network address and the same length. -/
def CIDRBlock.SameKey (a b : CIDRBlock) : Prop :=
  a.network = b.network ∧ a.maskBits = b.maskBits

/-! ## The matcher: soundness, completeness and order of preference -/

open Regexp

theorem mem_run (r : Regexp) : ∀ (s rest : List Char),
    rest ∈ r.run s ↔ ∃ m, s = m ++ rest ∧ Lang r m := by
  induction r with
  | emptyMatch =>
    intro s rest
    simp [run, Lang, eq_comm]
  | literal x =>
    intro s rest
    cases s with
    | nil => simp [run, Lang]
    | cons c s =>
      by_cases h : c = x
      · simp [run, Lang, h, eq_comm]
      · simp [run, Lang, h]
  | charClass lo hi =>
    intro s rest
    cases s with
    | nil => simp [run, Lang]
    | cons c s =>
      by_cases h : lo ≤ c ∧ c ≤ hi
      · simp only [run, Lang, h, and_self, if_true, List.mem_singleton]
        constructor
        · rintro rfl
          exact ⟨[c], rfl, c, rfl, h.1, h.2⟩
        · rintro ⟨m, hm, d, rfl, _⟩
          simp at hm
          exact hm.2.symm
      · simp only [run, Lang, h, if_false, List.not_mem_nil, false_iff]
        rintro ⟨m, hm, d, rfl, h1, h2⟩
        simp at hm
        exact h (hm.1 ▸ ⟨h1, h2⟩)
  | concat a b iha ihb =>
    intro s rest
    simp only [run, Lang, List.mem_flatMap, iha, ihb]
    constructor
    · rintro ⟨mid, ⟨m1, rfl, h1⟩, m2, rfl, h2⟩
      exact ⟨m1 ++ m2, by simp, m1, m2, rfl, h1, h2⟩
    · rintro ⟨m, rfl, m1, m2, rfl, h1, h2⟩
      exact ⟨m2 ++ rest, ⟨m1, by simp, h1⟩, m2, rfl, h2⟩
  | quest a iha =>
    intro s rest
    simp only [run, Lang, List.mem_append, iha, List.mem_singleton]
    constructor
    · rintro (⟨m, rfl, h⟩ | rfl)
      · exact ⟨m, rfl, Or.inl h⟩
      · exact ⟨[], rfl, Or.inr rfl⟩
    · rintro ⟨m, rfl, h | rfl⟩
      · exact Or.inl ⟨m, rfl, h⟩
      · exact Or.inr rfl

theorem run_length_lt (r : Regexp) (hr : ¬ Lang r []) (s x : List Char) (h : x ∈ r.run s) :
    x.length < s.length := by
  obtain ⟨m, rfl, hm⟩ := (mem_run r s x).1 h
  cases m with
  | nil => exact absurd hm hr
  | cons c m => simp; omega

theorem oneStep_literal (x : Char) : OneStep (literal x) := by
  intro s
  cases s with
  | nil => simp [run]
  | cons c s => by_cases h : c = x <;> simp [run, h]

theorem oneStep_charClass (lo hi : Char) : OneStep (charClass lo hi) := by
  intro s
  cases s with
  | nil => simp [run]
  | cons c s => by_cases h : lo ≤ c ∧ c ≤ hi <;> simp [run, h]

theorem det_of_oneStep {r : Regexp} (h : OneStep r) : Det r := by
  intro s
  rcases h s with h | ⟨_, h⟩ <;> simp [h]

theorem desc_of_length_le_one {l : List (List Char)} (h : l.length ≤ 1) : Desc l := by
  match l, h with
  | [], _ => exact List.Pairwise.nil
  | [a], _ => exact List.pairwise_singleton _ _

theorem descAll_of_det {r : Regexp} (h : Det r) : DescAll r :=
  fun s => desc_of_length_le_one (h s)

theorem mono_of_oneStep {r : Regexp} (h : OneStep r) : Mono r := by
  intro l hl
  induction l with
  | nil => exact List.Pairwise.nil
  | cons a t ih =>
    have hat := List.pairwise_cons.1 hl
    rw [List.flatMap_cons]
    refine List.pairwise_append.2 ⟨desc_of_length_le_one (det_of_oneStep h a), ih hat.2, ?_⟩
    intro x hx y hy
    obtain ⟨b, hb, hyb⟩ := List.mem_flatMap.1 hy
    have hab := hat.1 b hb
    rcases h a with ha | ⟨ha0, ha⟩
    · simp [ha] at hx
    · rcases h b with hb1 | ⟨hb0, hb1⟩
      · simp [hb1] at hyb
      · rw [ha] at hx
        rw [hb1] at hyb
        simp only [List.mem_singleton] at hx hyb
        subst hx hyb
        have h1 : 0 < a.length := List.length_pos.2 ha0
        simp only [List.length_tail]
        omega

theorem det_concat {a b : Regexp} (ha : Det a) (hb : Det b) : Det (concat a b) := by
  intro s
  simp only [run]
  have h := ha s
  match hs : a.run s, h with
  | [], _ => simp
  | [x], _ => simpa using hb x

theorem descAll_concat_det {a b : Regexp} (ha : Det a) (hb : DescAll b) : DescAll (concat a b) := by
  intro s
  simp only [run]
  have h := ha s
  match hs : a.run s, h with
  | [], _ => exact List.Pairwise.nil
  | [x], _ => simpa using hb x

theorem descAll_concat_mono {a b : Regexp} (ha : DescAll a) (hb : Mono b) : DescAll (concat a b) :=
  fun s => hb _ (ha s)

theorem descAll_quest {a : Regexp} (ha : DescAll a) (hne : ¬ Lang a []) : DescAll (quest a) := by
  intro s
  simp only [run]
  refine List.pairwise_append.2 ⟨ha s, List.pairwise_singleton _ _, ?_⟩
  intro x hx y hy
  simp only [List.mem_singleton] at hy
  subst hy
  exact run_length_lt a hne _ _ hx

theorem det_of_desc_of_eq {l : List (List Char)} (hd : Desc l)
    (he : ∀ x ∈ l, ∀ y ∈ l, x.length = y.length) : l.length ≤ 1 := by
  match l, hd, he with
  | [], _, _ => simp
  | [a], _, _ => simp
  | a :: b :: t, hd, he =>
    have h1 := (List.pairwise_cons.1 hd).1 b (by simp)
    have h2 := he a (by simp) b (by simp)
    omega

theorem digits13_eq : digits13 =
    .concat (.charClass '0' '9') (.quest (.concat (.charClass '0' '9') (.quest (.charClass '0' '9')))) := rfl

theorem lang_digits13 (m : List Char) : Lang digits13 m ↔ IsDigitGroup m := by
  rw [digits13_eq]
  simp only [Lang, IsDigitGroup, IsDecimalDigit]
  constructor
  · rintro ⟨m1, m2, rfl, ⟨c1, rfl, h1⟩, (⟨m3, m4, rfl, ⟨c2, rfl, h2⟩, (⟨c3, rfl, h3⟩ | rfl)⟩ | rfl)⟩
    · simp [h1, h2, h3]
    · simp [h1, h2]
    · simp [h1]
  · rintro ⟨hlo, hhi, hd⟩
    match m, hlo, hhi, hd with
    | [c1], _, _, hd =>
      exact ⟨[c1], [], rfl, ⟨c1, rfl, hd c1 (by simp)⟩, Or.inr rfl⟩
    | [c1, c2], _, _, hd =>
      exact ⟨[c1], [c2], rfl, ⟨c1, rfl, hd c1 (by simp)⟩,
        Or.inl ⟨[c2], [], rfl, ⟨c2, rfl, hd c2 (by simp)⟩, Or.inr rfl⟩⟩
    | [c1, c2, c3], _, _, hd =>
      exact ⟨[c1], [c2, c3], rfl, ⟨c1, rfl, hd c1 (by simp)⟩,
        Or.inl ⟨[c2], [c3], rfl, ⟨c2, rfl, hd c2 (by simp)⟩, Or.inl ⟨c3, rfl, hd c3 (by simp)⟩⟩⟩

theorem lang_concat (a b : Regexp) (m : List Char) :
    Lang (concat a b) m ↔ ∃ m1 m2, m = m1 ++ m2 ∧ Lang a m1 ∧ Lang b m2 := by
  simp only [Lang]

theorem lang_literal (x : Char) (m : List Char) : Lang (literal x) m ↔ m = [x] := by
  simp only [Lang]

theorem lang_cidrRegex (m : List Char) : Lang cidrRegex m ↔ IsCidrText m := by
  simp only [cidrRegex, seqOf, lang_concat, lang_literal, lang_digits13, IsCidrText]
  constructor
  · rintro ⟨a, _, rfl, ha, _, _, rfl, rfl, b, _, rfl, hb, _, _, rfl, rfl, c, _, rfl, hc, _, _, rfl,
      rfl, d, _, rfl, hd, _, p, rfl, rfl, hp⟩
    exact ⟨a, b, c, d, p, ha, hb, hc, hd, hp, by simp⟩
  · rintro ⟨a, b, c, d, p, ha, hb, hc, hd, hp, rfl⟩
    exact ⟨a, _, rfl, ha, _, _, rfl, rfl, b, _, rfl, hb, _, _, rfl, rfl, c, _, rfl, hc, _, _, rfl,
      rfl, d, _, rfl, hd, _, p, rfl, rfl, hp⟩

theorem descAll_digits13 : DescAll digits13 := by
  rw [digits13_eq]
  have hd : Det (charClass '0' '9') := det_of_oneStep (oneStep_charClass _ _)
  have hne : ¬ Lang (charClass '0' '9') [] := by simp [Lang]
  have h1 : DescAll (quest (charClass '0' '9')) := descAll_quest (descAll_of_det hd) hne
  have h2 : DescAll (concat (charClass '0' '9') (quest (charClass '0' '9'))) :=
    descAll_concat_det hd h1
  have hne2 : ¬ Lang (concat (charClass '0' '9') (quest (charClass '0' '9'))) [] := by
    simp [Lang]
  exact descAll_concat_det hd (descAll_quest h2 hne2)

theorem first_separator (x : Char) : ∀ (a b r t : List Char), (∀ c ∈ a, c ≠ x) → (∀ c ∈ b, c ≠ x) →
    a ++ x :: r = b ++ x :: t → a = b ∧ r = t := by
  intro a
  induction a with
  | nil =>
    intro b r t _ hb h
    cases b with
    | nil => simpa using h
    | cons c b =>
      simp at h
      exact absurd h.1.symm (hb c (by simp))
  | cons c a ih =>
    intro b r t ha hb h
    cases b with
    | nil =>
      simp at h
      exact absurd h.1 (ha c (by simp))
    | cons d b =>
      simp at h
      obtain ⟨h1, h2⟩ := ih b r t (fun c hc => ha c (by simp [hc])) (fun c hc => hb c (by simp [hc])) h.2
      exact ⟨by rw [h.1, h1], h2⟩

theorem det_digits13_sep (x : Char) (hx : ¬ IsDecimalDigit x) : Det (concat digits13 (literal x)) := by
  intro s
  have hdesc : Desc ((concat digits13 (literal x)).run s) :=
    descAll_concat_mono descAll_digits13 (mono_of_oneStep (oneStep_literal x)) s
  apply det_of_desc_of_eq hdesc
  intro u hu v hv
  obtain ⟨m, hm, a, _, rfl, ha, rfl⟩ := (mem_run _ _ _).1 hu
  obtain ⟨n, hn, b, _, rfl, hb, rfl⟩ := (mem_run _ _ _).1 hv
  rw [lang_digits13] at ha hb
  have hax : ∀ c ∈ a, c ≠ x := fun c hc hcx => hx (hcx ▸ ha.2.2 c hc)
  have hbx : ∀ c ∈ b, c ≠ x := fun c hc hcx => hx (hcx ▸ hb.2.2 c hc)
  have := first_separator x a b u v hax hbx (by simpa using hm.symm.trans hn)
  rw [this.2]

theorem cidrRegex_run_eq (s : List Char) : cidrRegex.run s =
    (concat (concat (concat digits13 (literal '.')) (concat (concat digits13 (literal '.'))
      (concat (concat digits13 (literal '.')) (concat digits13 (literal '/'))))) digits13).run s := by
  simp only [cidrRegex, seqOf, run, List.flatMap_assoc]

theorem descAll_cidrRegex : DescAll cidrRegex := by
  intro s
  rw [cidrRegex_run_eq]
  have hdot : Det (concat digits13 (literal '.')) := det_digits13_sep '.' (by simp [IsDecimalDigit])
  have hslash : Det (concat digits13 (literal '/')) := det_digits13_sep '/' (by simp [IsDecimalDigit])
  exact descAll_concat_det (det_concat hdot (det_concat hdot (det_concat hdot hslash)))
    descAll_digits13 s

theorem cidrText_ne_nil {m : List Char} (h : IsCidrText m) : m ≠ [] := by
  obtain ⟨a, b, c, d, p, ha, _, _, _, _, rfl⟩ := h
  cases a with
  | nil => simp [IsDigitGroup] at ha
  | cons x a => simp

theorem matchAt_some {r : Regexp} {s m rest : List Char} (h : r.matchAt s = some (m, rest)) :
    s = m ++ rest ∧ ∃ more, r.run s = rest :: more := by
  unfold matchAt at h
  split at h
  · rename_i x more hrun
    simp only [Option.some.injEq, Prod.mk.injEq] at h
    obtain ⟨h1, rfl⟩ := h
    refine ⟨?_, more, hrun⟩
    obtain ⟨m2, hm2, _⟩ := (mem_run r s x).1 (by rw [hrun]; simp)
    subst hm2
    rw [← h1]
    simp
  · simp at h

theorem matchAt_none {r : Regexp} {s : List Char} (h : r.matchAt s = none) : r.run s = [] := by
  unfold matchAt at h
  split at h
  · simp at h
  · assumption

theorem find_some {r : Regexp} : ∀ {s pre m post : List Char}, r.find s = some (pre, m, post) →
    s = pre ++ (m ++ post) ∧ r.matchAt (m ++ post) = some (m, post) ∧
      ∀ p q, pre = p ++ q → q ≠ [] → r.matchAt (q ++ (m ++ post)) = none := by
  intro s
  induction s with
  | nil =>
    intro pre m post h
    unfold find at h
    split at h
    · rename_i m2 rest2 hm
      simp only [Option.some.injEq, Prod.mk.injEq] at h
      obtain ⟨rfl, rfl, rfl⟩ := h
      have := (matchAt_some hm).1
      refine ⟨by simpa using this, by rw [← this]; exact hm, ?_⟩
      intro p q hpq hq
      simp at hpq
      exact absurd hpq.2 hq
    · simp at h
  | cons c t ih =>
    intro pre m post h
    unfold find at h
    split at h
    · rename_i m2 rest2 hm
      simp only [Option.some.injEq, Prod.mk.injEq] at h
      obtain ⟨rfl, rfl, rfl⟩ := h
      have := (matchAt_some hm).1
      refine ⟨by simpa using this, by rw [← this]; exact hm, ?_⟩
      intro p q hpq hq
      simp at hpq
      exact absurd hpq.2 hq
    · rename_i hnone
      split at h
      · rename_i sk m2 rest2 hf
        simp only [Option.some.injEq, Prod.mk.injEq] at h
        obtain ⟨rfl, rfl, rfl⟩ := h
        obtain ⟨h1, h2, h3⟩ := ih hf
        refine ⟨by simp [h1], h2, ?_⟩
        intro p q hpq hq
        cases p with
        | nil =>
          simp only [List.nil_append] at hpq
          subst hpq
          rw [List.cons_append, ← h1]
          exact hnone
        | cons d p =>
          simp only [List.cons_append, List.cons.injEq] at hpq
          exact h3 p q hpq.2 hq
      · simp at h

theorem find_none {r : Regexp} : ∀ {s : List Char}, r.find s = none →
    ∀ p q, s = p ++ q → r.matchAt q = none := by
  intro s
  induction s with
  | nil =>
    intro h p q hpq
    unfold find at h
    split at h
    · simp at h
    · rename_i hm
      have : q = [] := by
        have := congrArg List.length hpq
        simp at this
        exact List.length_eq_zero.1 (by omega)
      rw [this]; exact hm
  | cons c t ih =>
    intro h p q hpq
    unfold find at h
    split at h
    · simp at h
    · rename_i hm
      split at h
      · simp at h
      · rename_i hf
        cases p with
        | nil =>
          simp only [List.nil_append] at hpq
          rw [← hpq]; exact hm
        | cons d p =>
          simp only [List.cons_append, List.cons.injEq] at hpq
          exact ih hf p q hpq.2

theorem matchAt_cidr_some {s m rest : List Char} (h : cidrRegex.matchAt s = some (m, rest)) :
    IsCidrText m ∧ ∀ m2 post2, s = m2 ++ post2 → IsCidrText m2 → m2.length ≤ m.length := by
  obtain ⟨hs, more, hrun⟩ := matchAt_some h
  constructor
  · obtain ⟨m3, hm3, hl⟩ := (mem_run cidrRegex s rest).1 (by rw [hrun]; simp)
    have : m3 = m := List.append_cancel_right (hm3.symm.trans hs)
    rw [← this, ← lang_cidrRegex]; exact hl
  · intro m2 post2 hs2 hc
    have hmem : post2 ∈ cidrRegex.run s := (mem_run _ _ _).2 ⟨m2, hs2, (lang_cidrRegex _).2 hc⟩
    have hdesc := descAll_cidrRegex s
    rw [hrun] at hmem hdesc
    have hlen : rest.length ≤ post2.length := by
      rcases List.mem_cons.1 hmem with h1 | h1
      · rw [h1]
      · exact Nat.le_of_lt ((List.pairwise_cons.1 hdesc).1 _ h1)
    have e1 := congrArg List.length hs
    have e2 := congrArg List.length hs2
    simp only [List.length_append] at e1 e2
    omega

theorem matchAt_cidr_none {s : List Char} (h : cidrRegex.matchAt s = none) :
    ∀ m post, s = m ++ post → ¬ IsCidrText m := by
  intro m post hs hc
  have hmem : post ∈ cidrRegex.run s := (mem_run _ _ _).2 ⟨m, hs, (lang_cidrRegex _).2 hc⟩
  rw [matchAt_none h] at hmem
  simp at hmem

theorem allMatches_cidr : ∀ (fuel n : Nat) (s : List Char) (prevHere : Bool),
    s.length < fuel → s.length < n →
    SuccessiveMatches IsCidrText s (cidrRegex.allMatches fuel n (some s) prevHere) := by
  intro fuel
  induction fuel with
  | zero => intro n s _ h; omega
  | succ fuel ih =>
    intro n s prevHere hf hn
    have hn0 : n ≠ 0 := by omega
    unfold allMatches
    simp only [hn0, if_false]
    cases hfind : cidrRegex.find s with
    | none =>
      simp only []
      apply SuccessiveMatches.done
      intro pre m post hs hc
      have := find_none hfind pre (m ++ post) (by simpa using hs)
      exact matchAt_cidr_none this m post rfl hc
    | some res =>
      obtain ⟨pre, m, post⟩ := res
      obtain ⟨hs, hat, hleft⟩ := find_some hfind
      obtain ⟨hc, hlong⟩ := matchAt_cidr_some hat
      have hne : m ≠ [] := cidrText_ne_nil hc
      have hlen := congrArg List.length hs
      have hmpos : 0 < m.length := List.length_pos.2 hne
      simp only [List.length_append] at hlen
      simp only [hne, and_false, if_false]
      refine SuccessiveMatches.next s pre m post _ (by simpa using hs) hc ?_ hlong
        (ih (n - 1) post true (by omega) (by omega))
      intro pre2 m2 post2 hs2 hc2
      by_contra hlt
      rw [hs, List.append_assoc] at hs2
      rcases List.append_eq_append_iff.1 hs2 with ⟨q, h1, h2⟩ | ⟨q, h1, h2⟩
      · have := congrArg List.length h1
        simp at this
        omega
      · have hq : q ≠ [] := by
          rintro rfl
          simp at h1
          rw [h1] at hlt
          omega
        have := hleft pre2 q h1 hq
        exact matchAt_cidr_none this m2 post2 h2.symm hc2

theorem successiveMatches_unique {P : List Char → Prop} : ∀ {s : List Char} {l1 l2 : List (List Char)},
    SuccessiveMatches P s l1 → SuccessiveMatches P s l2 → l1 = l2 := by
  intro s l1 l2 h1
  induction h1 generalizing l2 with
  | done s hno =>
    intro h2
    cases h2 with
    | done _ _ => rfl
    | next _ pre m post later hs hp _ _ _ => exact absurd hp (hno pre m post hs)
  | next s pre m post later hs hp hleft hlong _ ih =>
    intro h2
    cases h2 with
    | done _ hno => exact absurd hp (hno pre m post hs)
    | next _ pre2 m2 post2 later2 hs2 hp2 hleft2 hlong2 hrest2 =>
      have e1 := hleft pre2 m2 post2 hs2 hp2
      have e2 := hleft2 pre m post hs hp
      have hpre : pre.length = pre2.length := by omega
      have heq : pre ++ (m ++ post) = pre2 ++ (m2 ++ post2) := by
        rw [← List.append_assoc, ← List.append_assoc, ← hs, ← hs2]
      obtain ⟨hp1, hp2x⟩ := List.append_inj heq hpre
      have e3 := hlong m2 post2 hp2x hp2
      have e4 := hlong2 m post hp2x.symm hp
      obtain ⟨hm, hpost⟩ := List.append_inj hp2x (by omega)
      subst hm hpost
      rw [ih hrest2]

/-! ## `FindAllString` on `cidrRegex` -/

theorem findAllString_elems (b : String) :
    (cidrRegex.FindAllString b (-1)).elems.map String.toList =
      cidrRegex.allMatches (2 * b.length + 2) (b.length + 1) (some b.toList) false := by
  unfold FindAllString
  have hn : (if (-1 : Int) < 0 then b.length + 1 else (-1 : Int).toNat) = b.length + 1 := by
    simp
  simp only [hn]
  cases cidrRegex.allMatches (2 * b.length + 2) (b.length + 1) (some b.toList) false with
  | nil => rfl
  | cons m ms =>
    simp only [Slice.elems, List.map_map]
    have : (String.toList ∘ String.mk) = id := by
      funext l
      rfl
    rw [this, List.map_id]

theorem findAllString_spec (b : String) :
    SuccessiveMatches IsCidrText b.toList
      ((cidrRegex.FindAllString b (-1)).elems.map String.toList) := by
  rw [findAllString_elems]
  apply allMatches_cidr
  · show b.toList.length < 2 * b.toList.length + 2
    omega
  · show b.toList.length < b.toList.length + 1
    omega

theorem successiveMatches_all {P : List Char → Prop} {s : List Char} {l : List (List Char)}
    (h : SuccessiveMatches P s l) : ∀ m ∈ l, P m := by
  induction h with
  | done s _ => intro m hm; simp at hm
  | next s pre m post later _ hp _ _ _ ih =>
    intro x hx
    rcases List.mem_cons.1 hx with rfl | hx
    · exact hp
    · exact ih x hx

theorem findAllString_ne_some_nil (re : Regexp) (s : String) (n : Int) :
    re.FindAllString s n ≠ some [] := by
  unfold FindAllString
  dsimp only
  split <;> simp

theorem findAllString_none_of_no_match (b : String)
    (h : ∀ pre m post, b.toList = pre ++ m ++ post → ¬ IsCidrText m) :
    cidrRegex.FindAllString b (-1) = none := by
  have h1 := findAllString_spec b
  have h2 := successiveMatches_unique h1 (SuccessiveMatches.done _ h)
  cases hf : cidrRegex.FindAllString b (-1) with
  | none => rfl
  | some l =>
    rw [hf] at h2
    simp only [Slice.elems, List.map_eq_nil_iff] at h2
    subst h2
    exact absurd hf (findAllString_ne_some_nil _ _ _)

theorem digit_facts {c : Char} (h : IsDecimalDigit c) :
    c ≠ '.' ∧ c ≠ '/' ∧ c ≠ ':' ∧ c.isWhitespace = false := by
  obtain ⟨h1, h2⟩ := h
  have h1n : 48 ≤ c.toNat := h1
  have h2n : c.toNat ≤ 57 := h2
  refine ⟨?_, ?_, ?_, ?_⟩
  · rintro rfl; revert h1n; decide
  · rintro rfl; revert h1n; decide
  · rintro rfl; revert h2n; decide
  · simp only [Char.isWhitespace, Bool.or_eq_false_iff, beq_eq_false_iff_ne, ne_eq]
    refine ⟨⟨⟨?_, ?_⟩, ?_⟩, ?_⟩ <;>
      (rw [decide_eq_false_iff_not]; rintro rfl; revert h1n; decide)

theorem group_count {g : List Char} (h : IsDigitGroup g) (x : Char) (hx : ¬ IsDecimalDigit x) :
    g.count x = 0 := by
  rw [List.count_eq_zero]
  intro hmem
  exact hx (h.2.2 x hmem)

theorem cidrShaped_of_text (s : String) (h : IsCidrText s.toList) : CidrShaped s := by
  have hlen : s.length = s.toList.length := rfl
  obtain ⟨a, b, c, d, p, ha, hb, hc, hd, hp, hs⟩ := id h
  have ndot : ¬ IsDecimalDigit '.' := by simp [IsDecimalDigit]
  have nslash : ¬ IsDecimalDigit '/' := by simp [IsDecimalDigit]
  have hmem : ∀ x ∈ s.toList, IsDecimalDigit x ∨ x = '.' ∨ x = '/' := by
    intro x hx
    rw [hs] at hx
    simp only [List.mem_append, List.mem_cons] at hx
    rcases hx with hx | rfl | hx | rfl | hx | rfl | hx | rfl | hx
    · exact Or.inl (ha.2.2 x hx)
    · exact Or.inr (Or.inl rfl)
    · exact Or.inl (hb.2.2 x hx)
    · exact Or.inr (Or.inl rfl)
    · exact Or.inl (hc.2.2 x hx)
    · exact Or.inr (Or.inl rfl)
    · exact Or.inl (hd.2.2 x hx)
    · exact Or.inr (Or.inr rfl)
    · exact Or.inl (hp.2.2 x hx)
  refine ⟨h, ?_, ?_, hmem, ?_, ?_, ?_, ?_⟩
  · rw [hlen, hs]
    simp only [List.length_append, List.length_cons]
    have := ha.1; have := hb.1; have := hc.1; have := hd.1; have := hp.1
    omega
  · rw [hlen, hs]
    simp only [List.length_append, List.length_cons]
    have := ha.2.1; have := hb.2.1; have := hc.2.1; have := hd.2.1; have := hp.2.1
    omega
  · rw [hs]
    simp [List.count_append, List.count_cons, group_count ha _ ndot, group_count hb _ ndot,
      group_count hc _ ndot, group_count hd _ ndot, group_count hp _ ndot]
  · rw [hs]
    simp [List.count_append, List.count_cons, group_count ha _ nslash, group_count hb _ nslash,
      group_count hc _ nslash, group_count hd _ nslash, group_count hp _ nslash]
  · intro hcolon
    rcases hmem _ hcolon with h1 | h1 | h1
    · exact (digit_facts h1).2.2.1 rfl
    · exact absurd h1 (by decide)
    · exact absurd h1 (by decide)
  · intro x hx
    rcases hmem x hx with h1 | rfl | rfl
    · exact (digit_facts h1).2.2.2
    · decide
    · decide

theorem findAllString_shaped (b : String) :
    ∀ s ∈ (cidrRegex.FindAllString b (-1)).elems, CidrShaped s := by
  intro s hs
  apply cidrShaped_of_text
  exact successiveMatches_all (findAllString_spec b) s.toList (List.mem_map_of_mem _ hs)

/-! ## The scrapers -/

theorem fetchOnce_do (req : Request) (c : Client) (wire : Wire) :
    (match c.Do req wire with
      | (.error err, wire) => (⟨none, some err, wire⟩ : Outcome)
      | (.ok resp, wire) =>
        match ReadAll resp.Body with
        | .error err => ⟨none, some err, wire⟩
        | .ok data => ⟨cidrRegex.FindAllString data (-1), none, wire⟩) =
      fetchOnce (.ok req) c wire := by
  simp only [Client.Do, ReadAll, fetchOnce]
  cases c.transport req with
  | error e => rfl
  | ok r => cases r.Body <;> rfl

theorem single_run_eq (sc : SingleScraper) (http : NetHttp) (c : Client) (options : Options)
    (wire : Wire) : sc.run http c options wire = fetchOnce (sc.built http options) c wire := by
  cases sc
  case azure => exact fetchOnce_do _ c wire
  case cloudFront => exact fetchOnce_do _ c wire
  case cloudflare => exact fetchOnce_do _ c wire
  case fastly => exact fetchOnce_do _ c wire
  case incapsula =>
    simp only [SingleScraper.run, scrapeIncapsula, SingleScraper.built]
    cases http.NewRequest "POST" "https://my.incapsula.com/api/integration/v1/ips"
      (some "resp_format=text") with
    | error e => rfl
    | ok req => exact fetchOnce_do _ c wire
  case akamai =>
    simp only [SingleScraper.run, scrapeAkamai, SingleScraper.built, SingleScraper.url]
    cases makeReqWithAuth http "GET" "https://ipinfo.io/AS12222" "Authorization"
      ("Bearer " ++ options.IPInfoToken) with
    | error e => rfl
    | ok req => exact fetchOnce_do _ c wire
  case sucuri =>
    simp only [SingleScraper.run, scrapeSucuri, SingleScraper.built, SingleScraper.url]
    cases makeReqWithAuth http "GET" "https://ipinfo.io/AS30148" "Authorization"
      ("Bearer " ++ options.IPInfoToken) with
    | error e => rfl
    | ok req => exact fetchOnce_do _ c wire
  case leaseweb =>
    simp only [SingleScraper.run, scrapeLeaseweb, SingleScraper.built, SingleScraper.url]
    cases makeReqWithAuth http "GET" "https://ipinfo.io/AS60626" "Authorization"
      ("Bearer " ++ options.IPInfoToken) with
    | error e => rfl
    | ok req => exact fetchOnce_do _ c wire
  case azion =>
    simp only [SingleScraper.run, scrapeAzion, SingleScraper.built, SingleScraper.url]
    cases makeReqWithAuth http "GET" "https://ipinfo.io/AS52580" "Authorization"
      ("Bearer " ++ options.IPInfoToken) with
    | error e => rfl
    | ok req => exact fetchOnce_do _ c wire

theorem newRequest_ok {http : NetHttp} {method url : String} {body : Option String}
    {req : Request} (hm : method ≠ "") (h : http.NewRequest method url body = .ok req) :
    req = { Method := method, URL := url, Header := [], Body := body } := by
  unfold NetHttp.NewRequest at h
  simp only [hm, if_false] at h
  split at h
  · simp at h
  · simp only [Except.ok.injEq] at h
    exact h.symm

theorem makeReqWithAuth_ok {http : NetHttp} {method url name value : String} {req : Request}
    (h : makeReqWithAuth http method url name value = .ok req) :
    req = { Method := "GET", URL := url, Header := [(name, "Bearer " ++ value)], Body := none } := by
  unfold makeReqWithAuth at h
  split at h
  · simp at h
  · rename_i r hr
    simp only [Except.ok.injEq] at h
    rw [← h, newRequest_ok (by decide) hr]
    rfl

theorem makeReqWithAuth_error {http : NetHttp} {method url name value : String} {e : GoError}
    (h : makeReqWithAuth http method url name value = .error e) :
    http.NewRequest "GET" url none = .error e := by
  unfold makeReqWithAuth at h
  split at h
  · rename_i e2 he
    simp only [Except.error.injEq] at h
    rw [he, h]
  · simp at h

theorem built_ok {sc : SingleScraper} {http : NetHttp} {options : Options} {req : Request}
    (h : sc.built http options = .ok req) :
    req.Method = sc.method ∧ req.URL = sc.url ∧ req.Body = sc.payload := by
  cases sc
  case incapsula =>
    simp only [SingleScraper.built] at h
    split at h
    · simp at h
    · rename_i r hr
      simp only [Except.ok.injEq] at h
      rw [← h, newRequest_ok (by decide) hr]
      exact ⟨rfl, rfl, rfl⟩
  case azure | cloudFront | cloudflare | fastly =>
    simp only [SingleScraper.built, Except.ok.injEq] at h
    rw [← h]
    exact ⟨rfl, rfl, rfl⟩
  case akamai | sucuri | leaseweb | azion =>
    simp only [SingleScraper.built] at h
    rw [makeReqWithAuth_ok h]
    exact ⟨rfl, rfl, rfl⟩

theorem built_error {sc : SingleScraper} {http : NetHttp} {options : Options} {e : GoError}
    (h : sc.built http options = .error e) :
    http.NewRequest sc.method sc.url sc.payload = .error e := by
  cases sc
  case incapsula =>
    simp only [SingleScraper.built] at h
    split at h
    · rename_i e2 he
      simp only [Except.error.injEq] at h
      rw [← h]
      exact he
    · simp at h
  case azure | cloudFront | cloudflare | fastly =>
    simp [SingleScraper.built] at h
  case akamai | sucuri | leaseweb | azion =>
    simp only [SingleScraper.built] at h
    exact makeReqWithAuth_error h

theorem foldl_append_one (l init : List String) :
    l.foldl (fun cidrs cidr => cidrs ++ [cidr]) init = init ++ l := by
  induction l generalizing init with
  | nil => simp
  | cons x l ih => simp [ih]

theorem asnFetch_ok {http : NetHttp} {c : Client} {options : Options} {asn b : String}
    (h : asnFetch http c options asn = .ok b) :
    makeReqWithAuth http "GET" ("https://ipinfo.io/" ++ asn) "Authorization"
        ("Bearer " ++ options.IPInfoToken) = .ok (ipinfoRequest options asn) ∧
      ∃ resp, c.transport (ipinfoRequest options asn) = .ok resp ∧ resp.Body = .ok b := by
  unfold asnFetch fetchBody ipinfoURL at h
  split at h
  · simp at h
  · rename_i req hreq
    have hr := makeReqWithAuth_ok hreq
    have hr2 : req = ipinfoRequest options asn := hr
    subst hr2
    refine ⟨hreq, ?_⟩
    split at h
    · simp at h
    · rename_i resp hresp
      exact ⟨resp, hresp, h⟩

theorem rangeASNlist_ok (http : NetHttp) (c : Client) (options : Options)
    (bodies : String → String) : ∀ (asns cidrs : List String) (wire : Wire),
    (∀ asn ∈ asns, asnFetch http c options asn = .ok (bodies asn)) →
    rangeASNlist http c options asns cidrs wire =
      ⟨some (cidrs ++ asns.flatMap (fun asn => (cidrRegex.FindAllString (bodies asn) (-1)).elems)),
        none, wire ++ asns.map (ipinfoRequest options)⟩ := by
  intro asns
  induction asns with
  | nil => intro cidrs wire _; simp [rangeASNlist]
  | cons asn later ih =>
    intro cidrs wire h
    obtain ⟨hreq, resp, hresp, hbody⟩ := asnFetch_ok (h asn (by simp))
    unfold rangeASNlist
    simp only [hreq, Client.Do, hresp, ReadAll, hbody, foldl_append_one]
    rw [ih _ _ (fun x hx => h x (by simp [hx]))]
    simp

theorem rangeASNlist_fail (http : NetHttp) (c : Client) (options : Options) (asn : String)
    (later : List String) (e : GoError) (hfail : asnFetch http c options asn = .error e) :
    ∀ (done cidrs : List String) (wire : Wire),
    (∀ x ∈ done, ∃ b, asnFetch http c options x = .ok b) →
    ∃ last, (last = [] ∨ last = [ipinfoRequest options asn]) ∧
      rangeASNlist http c options (done ++ asn :: later) cidrs wire =
        ⟨none, some e, wire ++ done.map (ipinfoRequest options) ++ last⟩ := by
  intro done
  induction done with
  | nil =>
    intro cidrs wire _
    unfold asnFetch fetchBody ipinfoURL at hfail
    simp only [List.nil_append]
    unfold rangeASNlist
    split at hfail
    · rename_i e2 he
      simp only [Except.error.injEq] at hfail
      subst hfail
      exact ⟨[], Or.inl rfl, by simp [he]⟩
    · rename_i req hreq
      have hr2 : req = ipinfoRequest options asn := makeReqWithAuth_ok hreq
      subst hr2
      refine ⟨[ipinfoRequest options asn], Or.inr rfl, ?_⟩
      simp only [hreq, Client.Do, ReadAll]
      split at hfail
      · rename_i e2 he
        simp only [Except.error.injEq] at hfail
        subst hfail
        simp [he]
      · rename_i resp hresp
        simp [hresp, hfail]
  | cons x done ih =>
    intro cidrs wire h
    obtain ⟨b, hb⟩ := h x (by simp)
    obtain ⟨hreq, resp, hresp, hbody⟩ := asnFetch_ok hb
    obtain ⟨last, hlast, hrun⟩ := ih
      (cidrs ++ (cidrRegex.FindAllString b (-1)).elems) (wire ++ [ipinfoRequest options x])
      (fun y hy => h y (by simp [hy]))
    refine ⟨last, hlast, ?_⟩
    rw [List.cons_append]
    unfold rangeASNlist
    simp only [hreq, Client.Do, hresp, ReadAll, hbody, foldl_append_one]
    rw [hrun]
    simp

theorem rangeASNlist_shaped (http : NetHttp) (c : Client) (options : Options) :
    ∀ (asns cidrs : List String) (wire : Wire),
    ∀ s ∈ (rangeASNlist http c options asns cidrs wire).cidrs.elems, s ∈ cidrs ∨ CidrShaped s := by
  intro asns
  induction asns with
  | nil => intro cidrs wire s hs; exact Or.inl (by simpa [rangeASNlist, Slice.elems] using hs)
  | cons asn later ih =>
    intro cidrs wire s hs
    unfold rangeASNlist at hs
    simp only [Client.Do, ReadAll, foldl_append_one] at hs
    split at hs
    · simp [Slice.elems] at hs
    · split at hs
      · simp [Slice.elems] at hs
      · rename_i req hreq resp2 wire2 hdo
        split at hs
        · simp [Slice.elems] at hs
        · rename_i data hdata
          rcases ih _ _ s hs with h1 | h1
          · rcases List.mem_append.1 h1 with h2 | h2
            · exact Or.inl h2
            · exact Or.inr (findAllString_shaped _ s h2)
          · exact Or.inr h1

theorem multi_run_eq (sc : MultiScraper) (http : NetHttp) (c : Client) (options : Options)
    (wire : Wire) : sc.run http c options wire = rangeASNlist http c options sc.asns [] wire := by
  cases sc <;> rfl

theorem no_match_of_find_none {s : List Char} (h : cidrRegex.find s = none) :
    ∀ pre m post, s = pre ++ m ++ post → ¬ IsCidrText m := by
  intro pre m post hs hc
  have := find_none h pre (m ++ post) (by simpa using hs)
  exact matchAt_cidr_none this m post rfl hc

theorem fetchOnce_cases (built : Except GoError Request) (c : Client) :
    (∃ req resp body, built = .ok req ∧ c.transport req = .ok resp ∧ resp.Body = .ok body ∧
        fetchOnce built c [] = ⟨cidrRegex.FindAllString body (-1), none, [req]⟩) ∨
    (∃ e, built = .error e ∧ fetchOnce built c [] = ⟨none, some e, []⟩) ∨
    (∃ req e, built = .ok req ∧ c.transport req = .error e ∧
        fetchOnce built c [] = ⟨none, some e, [req]⟩) ∨
    (∃ req resp e, built = .ok req ∧ c.transport req = .ok resp ∧ resp.Body = .error e ∧
        fetchOnce built c [] = ⟨none, some e, [req]⟩) := by
  cases built with
  | error e => exact Or.inr (Or.inl ⟨e, rfl, rfl⟩)
  | ok req =>
    cases ht : c.transport req with
    | error e =>
      refine Or.inr (Or.inr (Or.inl ⟨req, e, rfl, ht, ?_⟩))
      simp [fetchOnce, ht]
    | ok resp =>
      cases hb : resp.Body with
      | error e =>
        refine Or.inr (Or.inr (Or.inr ⟨req, resp, e, rfl, ht, hb, ?_⟩))
        simp [fetchOnce, ht, hb]
      | ok body =>
        refine Or.inl ⟨req, resp, body, rfl, ht, hb, ?_⟩
        simp [fetchOnce, ht, hb]

/-! ## The claims -/

/-- Claim C1: for each of the nine single-request scrapers and every client, the result
is either a list with a nil error or the nil list with an error that is not nil.  The
first case is exactly the one where the request was built, the round trip answered and
the body was read, and the list is then what `FindAllString` extracts; the second case
is exactly the one where building the request, the round trip or reading the body
failed, and the error returned is that very failure. -/
theorem single_scraper_list_or_error (sc : SingleScraper) (http : NetHttp)
    (httpClient : Client) (options : Options) :
    (∃ req resp body,
        sc.built http options = .ok req ∧
        req.Method = sc.method ∧ req.URL = sc.url ∧
        httpClient.transport req = .ok resp ∧ resp.Body = .ok body ∧
        (sc.run http httpClient options []).wire = [req] ∧
        (sc.run http httpClient options []).err = none ∧
        (sc.run http httpClient options []).cidrs = cidrRegex.FindAllString body (-1)) ∨
    (∃ e,
        (sc.run http httpClient options []).cidrs = none ∧
        (sc.run http httpClient options []).err = some e ∧
        ((sc.built http options = .error e ∧
            http.NewRequest sc.method sc.url sc.payload = .error e ∧
            (sc.run http httpClient options []).wire = []) ∨
          (∃ req, sc.built http options = .ok req ∧
            req.Method = sc.method ∧ req.URL = sc.url ∧
            httpClient.transport req = .error e ∧
            (sc.run http httpClient options []).wire = [req]) ∨
          (∃ req resp, sc.built http options = .ok req ∧
            req.Method = sc.method ∧ req.URL = sc.url ∧
            httpClient.transport req = .ok resp ∧ resp.Body = .error e ∧
            (sc.run http httpClient options []).wire = [req]))) := by
  rw [single_run_eq]
  rcases fetchOnce_cases (sc.built http options) httpClient with
    ⟨req, resp, body, hb, ht, hbody, hrun⟩ | ⟨e, hb, hrun⟩ | ⟨req, e, hb, ht, hrun⟩ |
    ⟨req, resp, e, hb, ht, hbody, hrun⟩
  · obtain ⟨h1, h2, _⟩ := built_ok hb
    exact Or.inl ⟨req, resp, body, hb, h1, h2, ht, hbody, by rw [hrun], by rw [hrun],
      by rw [hrun]⟩
  · exact Or.inr ⟨e, by rw [hrun], by rw [hrun], Or.inl ⟨hb, built_error hb, by rw [hrun]⟩⟩
  · obtain ⟨h1, h2, _⟩ := built_ok hb
    exact Or.inr ⟨e, by rw [hrun], by rw [hrun],
      Or.inr (Or.inl ⟨req, hb, h1, h2, ht, by rw [hrun]⟩)⟩
  · obtain ⟨h1, h2, _⟩ := built_ok hb
    exact Or.inr ⟨e, by rw [hrun], by rw [hrun],
      Or.inr (Or.inr ⟨req, resp, hb, h1, h2, ht, hbody, by rw [hrun]⟩)⟩

/-- Claim C2: when the request `req` of a single-request scraper is built, the round
trip answers it and reading the body gives `b`, the scraper sends that one request,
succeeds, and the strings it returns are, in order and with duplicates kept, the
successive non-overlapping leftmost matches of the pattern in `b`; that list of matches
is unique. -/
theorem single_scraper_successive_matches (sc : SingleScraper) (http : NetHttp)
    (httpClient : Client) (options : Options) (req : Request) (resp : Response) (b : String)
    (hbuilt : sc.built http options = .ok req)
    (hresp : httpClient.transport req = .ok resp) (hbody : resp.Body = .ok b) :
    (sc.run http httpClient options []).wire = [req] ∧
    (sc.run http httpClient options []).err = none ∧
    SuccessiveMatches IsCidrText b.toList
      ((sc.run http httpClient options []).cidrs.elems.map String.toList) ∧
    ∀ l, SuccessiveMatches IsCidrText b.toList l →
      l = (sc.run http httpClient options []).cidrs.elems.map String.toList := by
  rw [single_run_eq]
  have key : fetchOnce (sc.built http options) httpClient [] =
      ⟨cidrRegex.FindAllString b (-1), none, [req]⟩ := by
    simp [fetchOnce, hbuilt, hresp, hbody]
  rw [key]
  exact ⟨rfl, rfl, findAllString_spec b,
    fun l hl => successiveMatches_unique hl (findAllString_spec b)⟩

/-- A body with two blocks, one of them twice, served to `scrapeCloudflare`. -/
theorem single_scraper_successive_matches_witness :
    (SingleScraper.cloudflare.run acceptAll (answering 200 "1.2.3.0/24 9.9.9.9/9 1.2.3.0/24")
        ⟨""⟩ []).cidrs = some ["1.2.3.0/24", "9.9.9.9/9", "1.2.3.0/24"] ∧
    SuccessiveMatches IsCidrText "1.2.3.0/24 9.9.9.9/9 1.2.3.0/24".toList
      ((SingleScraper.cloudflare.run acceptAll
        (answering 200 "1.2.3.0/24 9.9.9.9/9 1.2.3.0/24") ⟨""⟩ []).cidrs.elems.map
          String.toList) :=
  ⟨by decide,
    (single_scraper_successive_matches .cloudflare acceptAll
      (answering 200 "1.2.3.0/24 9.9.9.9/9 1.2.3.0/24") ⟨""⟩
      { Method := "GET", URL := "https://www.cloudflare.com/ips-v4", Header := [], Body := none }
      ⟨200, .ok "1.2.3.0/24 9.9.9.9/9 1.2.3.0/24"⟩ "1.2.3.0/24 9.9.9.9/9 1.2.3.0/24"
      rfl rfl rfl).2.2.1⟩

theorem ipinfoURL_injective {x y : String} (h : ipinfoURL x = ipinfoURL y) : x = y := by
  unfold ipinfoURL at h
  have h2 := congrArg String.data h
  simp only [String.data_append, List.append_cancel_left_eq] at h2
  exact String.ext h2

theorem asns_nodup (sc : MultiScraper) : sc.asns.Nodup := by
  cases sc <;> decide

/-- Claim C3: when the rounds for the AS numbers before `asn` succeed and the round for
`asn` fails with `e` (building the request, the round trip or reading the body), a
multi-ASN scraper returns the nil list and `e`: what the earlier rounds extracted is
dropped.  The requests sent are those of the earlier AS numbers, followed by the one for
`asn` unless building it failed; no request is sent for a later AS number. -/
theorem multi_asn_aborts_on_first_failure (sc : MultiScraper) (http : NetHttp)
    (httpClient : Client) (options : Options) (done : List String) (asn : String)
    (later : List String) (e : GoError)
    (hlist : sc.asns = done ++ asn :: later)
    (hdone : ∀ x ∈ done, ∃ b, asnFetch http httpClient options x = .ok b)
    (hfail : asnFetch http httpClient options asn = .error e) :
    (sc.run http httpClient options []).cidrs = none ∧
    (sc.run http httpClient options []).err = some e ∧
    (∃ last, (last = [] ∨ last = [ipinfoRequest options asn]) ∧
      (sc.run http httpClient options []).wire = done.map (ipinfoRequest options) ++ last) ∧
    ∀ x ∈ later, ∀ r ∈ (sc.run http httpClient options []).wire, r.URL ≠ ipinfoURL x := by
  rw [multi_run_eq, hlist]
  obtain ⟨last, hlast, hrun⟩ :=
    rangeASNlist_fail http httpClient options asn later e hfail done [] [] hdone
  rw [hrun]
  refine ⟨rfl, rfl, ⟨last, hlast, by simp⟩, ?_⟩
  intro x hx r hr hurl
  have hnd := asns_nodup sc
  rw [hlist] at hnd
  have hmem : ∃ y ∈ done ++ [asn], r = ipinfoRequest options y := by
    simp only [List.nil_append, List.mem_append, List.mem_map] at hr
    rcases hr with ⟨y, hy, rfl⟩ | hr
    · exact ⟨y, by simp [hy], rfl⟩
    · rcases hlast with rfl | rfl
      · simp at hr
      · simp only [List.mem_singleton] at hr
        exact ⟨asn, by simp, hr⟩
  obtain ⟨y, hy, rfl⟩ := hmem
  have hxy : y = x := ipinfoURL_injective hurl
  subst hxy
  have h1 : done ++ asn :: later = (done ++ [asn]) ++ later := by simp
  rw [h1] at hnd
  exact (List.nodup_append.1 hnd).2.2 hy hx

/-- The second of the three rounds of `scrapeEdgeCast` fails in the transport. -/
theorem multi_asn_aborts_on_first_failure_witness :
    (MultiScraper.edgeCast.run acceptAll
        (failingAt "https://ipinfo.io/AS14210" ⟨"timeout"⟩ "1.2.3.0/24") ⟨"t"⟩ []).cidrs = none ∧
    (MultiScraper.edgeCast.run acceptAll
        (failingAt "https://ipinfo.io/AS14210" ⟨"timeout"⟩ "1.2.3.0/24") ⟨"t"⟩ []).err =
      some ⟨"timeout"⟩ ∧
    (∃ last, (last = [] ∨ last = [ipinfoRequest ⟨"t"⟩ "AS14210"]) ∧
      (MultiScraper.edgeCast.run acceptAll
        (failingAt "https://ipinfo.io/AS14210" ⟨"timeout"⟩ "1.2.3.0/24") ⟨"t"⟩ []).wire =
        ["AS15133"].map (ipinfoRequest ⟨"t"⟩) ++ last) ∧
    ∀ x ∈ ["AS14153"], ∀ r ∈ (MultiScraper.edgeCast.run acceptAll
        (failingAt "https://ipinfo.io/AS14210" ⟨"timeout"⟩ "1.2.3.0/24") ⟨"t"⟩ []).wire,
      r.URL ≠ ipinfoURL x :=
  multi_asn_aborts_on_first_failure .edgeCast acceptAll
    (failingAt "https://ipinfo.io/AS14210" ⟨"timeout"⟩ "1.2.3.0/24") ⟨"t"⟩
    ["AS15133"] "AS14210" ["AS14153"] ⟨"timeout"⟩ rfl
    (by
      intro x hx
      simp only [List.mem_singleton] at hx
      subst hx
      exact ⟨"1.2.3.0/24", rfl⟩)
    rfl

/-- Claim C4: when every round succeeds (the request is built, answered and read, with
body `bodies asn` for the AS number `asn`), a multi-ASN scraper sends exactly one GET
request per listed AS number, to `https://ipinfo.io/<ASN>`, in list order, and returns,
with a nil error, a list that is not nil: the concatenation in that order of what
`FindAllString` extracts from each body.  The lists have 5, 3 and 9 entries. -/
theorem multi_asn_concatenates_in_order (sc : MultiScraper) (http : NetHttp)
    (httpClient : Client) (options : Options) (bodies : String → String)
    (hall : ∀ asn ∈ sc.asns, asnFetch http httpClient options asn = .ok (bodies asn)) :
    (sc.run http httpClient options []).err = none ∧
    (sc.run http httpClient options []).cidrs =
      some (sc.asns.flatMap (fun asn => (cidrRegex.FindAllString (bodies asn) (-1)).elems)) ∧
    (sc.run http httpClient options []).wire.map (fun r => (r.Method, r.URL)) =
      sc.asns.map (fun asn => ("GET", "https://ipinfo.io/" ++ asn)) ∧
    (sc.run http httpClient options []).wire.length = sc.asns.length ∧
    sc.asns.length = (match sc with
      | .stackPath => 5
      | .edgeCast => 3
      | .limeLight => 9) := by
  rw [multi_run_eq, rangeASNlist_ok http httpClient options bodies sc.asns [] [] hall]
  refine ⟨rfl, by simp, ?_, by simp, by cases sc <;> rfl⟩
  simp only [List.nil_append, List.map_map]
  rfl

/-- The three rounds of `scrapeEdgeCast`, each answered with the same block. -/
theorem multi_asn_concatenates_in_order_witness :
    (MultiScraper.edgeCast.run acceptAll (answering 200 "1.2.3.0/24") ⟨"t"⟩ []).cidrs =
      some ["1.2.3.0/24", "1.2.3.0/24", "1.2.3.0/24"] ∧
    (MultiScraper.edgeCast.run acceptAll (answering 200 "1.2.3.0/24") ⟨"t"⟩ []).wire.map
        (fun r => (r.Method, r.URL)) =
      [("GET", "https://ipinfo.io/AS15133"), ("GET", "https://ipinfo.io/AS14210"),
        ("GET", "https://ipinfo.io/AS14153")] := by
  have h := multi_asn_concatenates_in_order .edgeCast acceptAll (answering 200 "1.2.3.0/24")
    ⟨"t"⟩ (fun _ => "1.2.3.0/24") (fun _ _ => rfl)
  refine ⟨?_, ?_⟩
  · rw [h.2.1]
    decide
  · rw [h.2.2.1]
    rfl

/-- Claim C6: `scrapeProjectDiscovery` sends exactly one request, a GET to
`https://cdn.nuclei.sh`.  When the round trip fails it returns the nil map and that
error; when the body decodes to `m` it returns `m` as decoded and a nil error; when the
body does not decode it returns the nil map and the error of the decoder. -/
theorem projectDiscovery_one_get_map_unchanged
    (decode : Except GoError String → Except GoError ProviderMap) (httpClient : Client) :
    (scrapeProjectDiscovery decode httpClient []).wire =
      [{ Method := "GET", URL := "https://cdn.nuclei.sh", Header := [], Body := none }] ∧
    (∀ e, httpClient.transport
        { Method := "GET", URL := "https://cdn.nuclei.sh", Header := [], Body := none } =
          .error e →
      (scrapeProjectDiscovery decode httpClient []).data = none ∧
      (scrapeProjectDiscovery decode httpClient []).err = some e) ∧
    (∀ resp m, httpClient.transport
        { Method := "GET", URL := "https://cdn.nuclei.sh", Header := [], Body := none } =
          .ok resp → decode resp.Body = .ok m →
      (scrapeProjectDiscovery decode httpClient []).data = m ∧
      (scrapeProjectDiscovery decode httpClient []).err = none) ∧
    (∀ resp e, httpClient.transport
        { Method := "GET", URL := "https://cdn.nuclei.sh", Header := [], Body := none } =
          .ok resp → decode resp.Body = .error e →
      (scrapeProjectDiscovery decode httpClient []).data = none ∧
      (scrapeProjectDiscovery decode httpClient []).err = some e) := by
  simp only [scrapeProjectDiscovery, Client.Get, Client.Do, List.nil_append]
  refine ⟨?_, ?_, ?_, ?_⟩
  · cases httpClient.transport _ with
    | error e => rfl
    | ok resp => simp only []; cases decode resp.Body <;> rfl
  · intro e h
    simp [h]
  · intro resp m h hd
    simp [h, hd]
  · intro resp e h hd
    simp [h, hd]

/-- A witness for claim C6: a feed of one provider, passed through as decoded. -/
theorem projectDiscovery_one_get_map_unchanged_witness :
    (scrapeProjectDiscovery (fun _ => .ok (some [("cloudflare", ["not a cidr", "1.2.3.0/24 "])]))
        (answering 200 "ignored") []).data =
      some [("cloudflare", ["not a cidr", "1.2.3.0/24 "])] ∧
    (scrapeProjectDiscovery (fun _ => .ok (some [("cloudflare", ["not a cidr", "1.2.3.0/24 "])]))
        (answering 200 "ignored") []).err = none :=
  (projectDiscovery_one_get_map_unchanged
    (fun _ => .ok (some [("cloudflare", ["not a cidr", "1.2.3.0/24 "])]))
    (answering 200 "ignored")).2.2.1 ⟨200, .ok "ignored"⟩ _ rfl rfl

theorem rangeASNlist_nothing_extracted (http : NetHttp) (c : Client) (options : Options) :
    ∀ (asns cidrs : List String) (wire : Wire),
      (∀ asn ∈ asns, ∃ body, asnFetch http c options asn = .ok body ∧
        ∀ pre m post, body.toList = pre ++ m ++ post → ¬ IsCidrText m) →
      (rangeASNlist http c options asns cidrs wire).err = none ∧
      (rangeASNlist http c options asns cidrs wire).cidrs = some cidrs := by
  intro asns
  induction asns with
  | nil => intro cidrs wire _; exact ⟨rfl, rfl⟩
  | cons asn later ih =>
    intro cidrs wire h
    obtain ⟨body, hfetch, hno⟩ := h asn (by simp)
    obtain ⟨hreq, resp, hresp, hbody⟩ := asnFetch_ok hfetch
    unfold rangeASNlist
    simp only [hreq, Client.Do, hresp, ReadAll, hbody, foldl_append_one,
      findAllString_none_of_no_match body hno, Slice.elems, List.append_nil]
    exact ih cidrs _ (fun x hx => h x (by simp [hx]))

theorem fetchBody_ok {built : Except GoError Request} {c : Client} {body : String}
    (h : fetchBody built c = .ok body) :
    ∃ req resp, built = .ok req ∧ c.transport req = .ok resp ∧ resp.Body = .ok body := by
  unfold fetchBody at h
  split at h
  · simp at h
  · rename_i req
    split at h
    · simp at h
    · rename_i resp hresp
      exact ⟨req, resp, rfl, hresp, h⟩

/-- A counterexample to claim C7: the provider answers `scrapeCloudflare` with status 503
and an HTML error page, from which no CIDR can be extracted, and the scraper reports
success: a nil error, together with the nil list.  The same holds for an empty body. -/
theorem malformed_response_is_not_an_error :
    (∀ pre m post, "<html><body>503 Service Unavailable</body></html>".toList =
        pre ++ m ++ post → ¬ IsCidrText m) ∧
    (scrapeCloudflare
      (answering 503 "<html><body>503 Service Unavailable</body></html>") []).err = none ∧
    (scrapeCloudflare
      (answering 503 "<html><body>503 Service Unavailable</body></html>") []).cidrs = none ∧
    (scrapeCloudflare (answering 200 "") []).err = none ∧
    (scrapeCloudflare (answering 200 "") []).cidrs = none := by
  refine ⟨no_match_of_find_none (by decide), rfl, by decide, rfl, by decide⟩

/-- Claim C7, amended: when every request a regex-based scraper itself sends is built,
answered and read, whatever the status of the response, and no CIDR can be extracted
from any of the bodies, the scraper reports success: the error is nil and the list
returned has no element.  Nothing is assumed about the answers to other requests. -/
theorem delivered_response_without_cidr_is_success (sc : RegexScraper) (http : NetHttp)
    (httpClient : Client) (options : Options)
    (hdeliver : ∀ r ∈ sc.fetches http httpClient options, ∃ body, r = .ok body ∧
      ∀ pre m post, body.toList = pre ++ m ++ post → ¬ IsCidrText m) :
    (sc.run http httpClient options []).err = none ∧
    (sc.run http httpClient options []).cidrs.elems = [] := by
  cases sc with
  | single s =>
    show (s.run http httpClient options []).err = none ∧
      (s.run http httpClient options []).cidrs.elems = []
    rw [single_run_eq]
    obtain ⟨body, hfetch, hno⟩ := hdeliver _ (List.mem_singleton.2 rfl)
    obtain ⟨req, resp, hreq, hresp, hbody⟩ := fetchBody_ok hfetch
    simp [fetchOnce, hreq, hresp, hbody, findAllString_none_of_no_match body hno, Slice.elems]
  | multi m =>
    show (m.run http httpClient options []).err = none ∧
      (m.run http httpClient options []).cidrs.elems = []
    rw [multi_run_eq]
    obtain ⟨h1, h2⟩ :=
      rangeASNlist_nothing_extracted http httpClient options m.asns [] []
        (fun asn hasn => hdeliver _ (List.mem_map_of_mem _ hasn))
    rw [h1, h2]
    exact ⟨rfl, rfl⟩

/-- An outage of one provider: Cloudflare answers with status 503 and an error page while
every other endpoint serves a block, and the standard library rejects nothing that
`scrapeCloudflare` needs. -/
theorem delivered_response_without_cidr_is_success_witness :
    (RegexScraper.run (.single .cloudflare) acceptAll
        (answeringAt "https://www.cloudflare.com/ips-v4" 503
          "<html><body>503 Service Unavailable</body></html>" "1.2.3.0/24") ⟨"t"⟩ []).err =
      none ∧
    (RegexScraper.run (.single .cloudflare) acceptAll
        (answeringAt "https://www.cloudflare.com/ips-v4" 503
          "<html><body>503 Service Unavailable</body></html>" "1.2.3.0/24") ⟨"t"⟩
        []).cidrs.elems = [] ∧
    (RegexScraper.run (.single .fastly) acceptAll
        (answeringAt "https://www.cloudflare.com/ips-v4" 503
          "<html><body>503 Service Unavailable</body></html>" "1.2.3.0/24") ⟨"t"⟩
        []).cidrs.elems = ["1.2.3.0/24"] :=
  ⟨(delivered_response_without_cidr_is_success (.single .cloudflare) acceptAll
      (answeringAt "https://www.cloudflare.com/ips-v4" 503
        "<html><body>503 Service Unavailable</body></html>" "1.2.3.0/24") ⟨"t"⟩
      (fun r hr => ⟨"<html><body>503 Service Unavailable</body></html>",
        List.mem_singleton.1 hr, no_match_of_find_none (by decide)⟩)).1,
    (delivered_response_without_cidr_is_success (.single .cloudflare) acceptAll
      (answeringAt "https://www.cloudflare.com/ips-v4" 503
        "<html><body>503 Service Unavailable</body></html>" "1.2.3.0/24") ⟨"t"⟩
      (fun r hr => ⟨"<html><body>503 Service Unavailable</body></html>",
        List.mem_singleton.1 hr, no_match_of_find_none (by decide)⟩)).2,
    by decide⟩

/-- Claim C9: every string a regex-based scraper returns, whatever the client answers,
has the shape `d{1,3}.d{1,3}.d{1,3}.d{1,3}/d{1,3}`: only decimal digits, exactly three
dots and exactly one slash; between 9 and 19 characters; no colon and no white space. -/
theorem scraped_strings_have_cidr_shape (sc : RegexScraper) (http : NetHttp)
    (httpClient : Client) (options : Options) (s : String)
    (hs : s ∈ (sc.run http httpClient options []).cidrs.elems) : CidrShaped s := by
  cases sc with
  | single sc =>
    have hs2 : s ∈ (sc.run http httpClient options []).cidrs.elems := hs
    rw [single_run_eq] at hs2
    rcases fetchOnce_cases (sc.built http options) httpClient with
      ⟨_, _, body, _, _, _, hrun⟩ | ⟨_, _, hrun⟩ | ⟨_, _, _, _, hrun⟩ | ⟨_, _, _, _, _, _, hrun⟩
    · rw [hrun] at hs2
      exact findAllString_shaped body s hs2
    · rw [hrun] at hs2; simp [Slice.elems] at hs2
    · rw [hrun] at hs2; simp [Slice.elems] at hs2
    · rw [hrun] at hs2; simp [Slice.elems] at hs2
  | multi m =>
    have hs2 : s ∈ (m.run http httpClient options []).cidrs.elems := hs
    rw [multi_run_eq] at hs2
    rcases rangeASNlist_shaped http httpClient options m.asns [] [] s hs2 with h | h
    · simp at h
    · exact h

/-- The string `scrapeFastly` extracts from a page that quotes one block. -/
theorem scraped_strings_have_cidr_shape_witness : CidrShaped "203.0.113.0/24" :=
  scraped_strings_have_cidr_shape (.single .fastly) acceptAll
    (answering 200 "<ip>203.0.113.0/24</ip>") ⟨""⟩ "203.0.113.0/24" (by decide)

/-- Claim C10: the strings a scraper yields are candidates only.  The body
`999.999.999.999/999` makes `scrapeFastly` succeed with that very string, which is not
valid IPv4 CIDR notation; and the body `1234.1.1.1/24` makes it succeed with
`234.1.1.1/24`, the body without its first digit, since the pattern is not anchored. -/
theorem candidates_may_be_invalid :
    (scrapeFastly (answering 200 "999.999.999.999/999") []).cidrs =
      some ["999.999.999.999/999"] ∧
    (scrapeFastly (answering 200 "999.999.999.999/999") []).err = none ∧
    isValidIPv4Cidr "999.999.999.999/999" = false ∧
    (scrapeFastly (answering 200 "1234.1.1.1/24") []).cidrs = some ["234.1.1.1/24"] ∧
    (scrapeFastly (answering 200 "1234.1.1.1/24") []).err = none ∧
    "1234.1.1.1/24" = "1" ++ "234.1.1.1/24" ∧
    "234.1.1.1/24" ≠ "1234.1.1.1/24" ∧
    isValidIPv4Cidr "1234.1.1.1/24" = false ∧
    isValidIPv4Cidr "234.1.1.1/24" = true := by
  refine ⟨by decide, rfl, by decide, by decide, rfl, by decide, by decide, by decide, by decide⟩

/-- Claim C5 fails on the code: with the token `abc`, the request `scrapeAkamai` and
`scrapeStackPath` send carries exactly one Authorization header, and its value is
`Bearer Bearer abc`, not `Bearer abc`: the callers prepend `Bearer ` and
`makeReqWithAuth` prepends it once more. -/
theorem bearer_is_prepended_twice :
    makeReqWithAuth acceptAll "GET" "https://ipinfo.io/AS12222" "Authorization"
        ("Bearer " ++ "abc") =
      .ok { Method := "GET", URL := "https://ipinfo.io/AS12222",
            Header := [("Authorization", "Bearer Bearer abc")], Body := none } ∧
    (scrapeAkamai acceptAll (answering 200 "") ⟨"abc"⟩ []).wire.map Request.Header =
      [[("Authorization", "Bearer Bearer abc")]] ∧
    (scrapeStackPath acceptAll (answering 200 "") ⟨"abc"⟩ []).wire.map Request.Header =
      List.replicate 5 [("Authorization", "Bearer Bearer abc")] ∧
    "Bearer Bearer abc" ≠ "Bearer " ++ "abc" := by
  refine ⟨rfl, by decide, by decide, by decide⟩

/-! ## The resolver -/

theorem before_total (a b : CIDRBlock) : a.before b ∨ b.before a := by
  unfold CIDRBlock.before
  omega

theorem before_trans {a b c : CIDRBlock} (h1 : a.before b) (h2 : b.before c) : a.before c := by
  unfold CIDRBlock.before at *
  omega

theorem sorted_pairwise (snap : AggregateSnapshot) (fam : Family) :
    (snap.sorted fam).Pairwise CIDRBlock.before :=
  @List.sorted_insertionSort _ CIDRBlock.before _ ⟨before_total⟩ ⟨fun _ _ _ => before_trans⟩ _

theorem mem_sorted (snap : AggregateSnapshot) (fam : Family) (b : CIDRBlock) :
    b ∈ snap.sorted fam ↔ b ∈ snap.blocks ∧ b.family = fam := by
  unfold AggregateSnapshot.sorted
  rw [(List.perm_insertionSort _ _).mem_iff]
  simp

theorem binarySearch_sound (blocks : List CIDRBlock) (target : CIDRBlock) :
    ∀ (fuel lo hi : Nat), binarySearch blocks target fuel lo hi = true →
      ∃ b ∈ blocks, b.SameKey target := by
  intro fuel
  induction fuel with
  | zero => intro lo hi h; simp [binarySearch] at h
  | succ fuel ih =>
    intro lo hi h
    unfold binarySearch at h
    split at h
    · split at h
      · simp at h
      · rename_i b hb
        split at h
        · rename_i hkey
          exact ⟨b, List.getElem?_mem hb, hkey⟩
        · split at h
          · exact ih _ _ h
          · exact ih _ _ h
    · simp at h

theorem binarySearch_complete (blocks : List CIDRBlock) (target : CIDRBlock)
    (hsorted : blocks.Pairwise CIDRBlock.before) :
    ∀ (fuel lo hi : Nat), hi ≤ blocks.length → hi - lo < fuel →
      (∃ i b, lo ≤ i ∧ i < hi ∧ blocks[i]? = some b ∧ b.SameKey target) →
      binarySearch blocks target fuel lo hi = true := by
  intro fuel
  induction fuel with
  | zero => intro lo hi _ h; omega
  | succ fuel ih =>
    intro lo hi hhi hfuel ⟨i, b, hlo, hi2, hb, hkey⟩
    have hlt : lo < hi := by omega
    have hmid : (lo + hi) / 2 < blocks.length := by omega
    have hget : blocks[(lo + hi) / 2]? = some blocks[(lo + hi) / 2] :=
      List.getElem?_eq_getElem hmid
    have hi3 : i < blocks.length := by omega
    have hbi : blocks[i] = b := by
      rw [List.getElem?_eq_getElem hi3] at hb
      exact Option.some.inj hb
    have hpair := List.pairwise_iff_getElem.1 hsorted
    unfold binarySearch
    simp only [hlt, if_true, hget]
    by_cases hk : blocks[(lo + hi) / 2].network = target.network ∧
        blocks[(lo + hi) / 2].maskBits = target.maskBits
    · simp only [hk, and_self, if_true]
    · simp only [hk, if_false]
      by_cases hbefore : blocks[(lo + hi) / 2].before target
      · simp only [hbefore, if_true]
        apply ih _ _ hhi (by omega)
        refine ⟨i, b, ?_, hi2, hb, hkey⟩
        by_contra hcon
        have hle : i ≤ (lo + hi) / 2 := by omega
        rcases Nat.lt_or_eq_of_le hle with hlt2 | heq
        · have h1 := hpair i ((lo + hi) / 2) hi3 hmid hlt2
          rw [hbi] at h1
          unfold CIDRBlock.before at h1 hbefore
          unfold CIDRBlock.SameKey at hkey
          omega
        · subst heq
          rw [hbi] at hk
          exact hk hkey
      · simp only [hbefore, if_false]
        apply ih _ _ (by omega) (by omega)
        refine ⟨i, b, hlo, ?_, hb, hkey⟩
        by_contra hcon
        have hle : (lo + hi) / 2 ≤ i := by omega
        rcases Nat.lt_or_eq_of_le hle with hlt2 | heq
        · have h1 := hpair ((lo + hi) / 2) i hmid hi3 hlt2
          rw [hbi] at h1
          unfold CIDRBlock.before at h1 hbefore
          unfold CIDRBlock.SameKey at hkey
          omega
        · have hb2 : blocks[(lo + hi) / 2] = b := by
            rw [← hbi]
            congr 1
          rw [hb2] at hk
          exact hk hkey

theorem contains_iff_key (snap : AggregateSnapshot) (ip : IPAddr) :
    snap.Contains ip = true ↔
      ∃ len, len ≤ ip.family.bits ∧ ∃ b ∈ snap.blocks, b.family = ip.family ∧
        b.SameKey (ip.blockOfLength len) := by
  unfold AggregateSnapshot.Contains
  simp only [List.any_eq_true, List.mem_range]
  constructor
  · rintro ⟨len, hlen, hsearch⟩
    obtain ⟨b, hb, hkey⟩ := binarySearch_sound _ _ _ _ _ hsearch
    rw [mem_sorted] at hb
    exact ⟨len, by omega, b, hb.1, hb.2, hkey⟩
  · rintro ⟨len, hlen, b, hb, hfam, hkey⟩
    refine ⟨len, by omega, ?_⟩
    have hmem : b ∈ snap.sorted ip.family := (mem_sorted _ _ _).2 ⟨hb, hfam⟩
    obtain ⟨i, hi, hget⟩ := List.getElem_of_mem hmem
    apply binarySearch_complete _ _ (sorted_pairwise snap ip.family) _ _ _ (Nat.le_refl _)
      (by omega)
    exact ⟨i, b, Nat.zero_le _, hi, by rw [List.getElem?_eq_getElem hi, hget], hkey⟩

theorem inRange_of_key (b : CIDRBlock) (ip : IPAddr) (len : Nat) (hfam : b.family = ip.family)
    (hkey : b.SameKey (ip.blockOfLength len)) : b.InRange ip := by
  obtain ⟨hnet, hlen⟩ := hkey
  simp only [IPAddr.blockOfLength] at hnet hlen
  have hh : b.hostBits = ip.family.bits - len := by
    unfold CIDRBlock.hostBits
    rw [hfam, hlen]
  have hpos : 0 < 2 ^ (ip.family.bits - len) := Nat.pow_pos (by decide)
  refine ⟨hfam, ?_, ?_⟩
  · rw [hnet]
    exact Nat.div_mul_le_self _ _
  · unfold CIDRBlock.lastAddress
    rw [hh, hnet]
    have h1 := Nat.div_add_mod ip.value (2 ^ (ip.family.bits - len))
    have h2 := Nat.mod_lt ip.value hpos
    rw [Nat.mul_comm] at h1
    omega

theorem key_of_inRange (b : CIDRBlock) (ip : IPAddr) (hwf : b.WellFormed) (hin : b.InRange ip) :
    b.maskBits ≤ ip.family.bits ∧ b.SameKey (ip.blockOfLength b.maskBits) := by
  obtain ⟨hmask, _, hzero⟩ := hwf
  obtain ⟨hfam, hlo, hhi⟩ := hin
  have hh : b.hostBits = ip.family.bits - b.maskBits := by
    unfold CIDRBlock.hostBits
    rw [hfam]
  unfold CIDRBlock.lastAddress at hhi
  rw [hh] at hzero hhi
  have hpos : 0 < 2 ^ (ip.family.bits - b.maskBits) := Nat.pow_pos (by decide)
  refine ⟨hfam ▸ hmask, ?_, rfl⟩
  simp only [IPAddr.blockOfLength]
  have hnet : b.network / 2 ^ (ip.family.bits - b.maskBits) *
      2 ^ (ip.family.bits - b.maskBits) = b.network := by
    have := Nat.div_add_mod b.network (2 ^ (ip.family.bits - b.maskBits))
    rw [Nat.mul_comm] at this
    omega
  have hq : ip.value / 2 ^ (ip.family.bits - b.maskBits) =
      b.network / 2 ^ (ip.family.bits - b.maskBits) := by
    apply Nat.le_antisymm
    · have : ip.value < (b.network / 2 ^ (ip.family.bits - b.maskBits) + 1) *
          2 ^ (ip.family.bits - b.maskBits) := by
        rw [Nat.add_mul, hnet]
        omega
      exact Nat.lt_succ_iff.1 ((Nat.div_lt_iff_lt_mul hpos).2 this)
    · exact Nat.div_le_div_right hlo
  rw [hq, hnet]

theorem mem_blocks (snap : AggregateSnapshot) (b : CIDRBlock) :
    b ∈ snap.blocks ↔ ∃ p ∈ snap.providers, b ∈ p.blocks := by
  simp [AggregateSnapshot.blocks, List.mem_flatMap]

theorem contains_iff_in_some_block (snap : AggregateSnapshot) (ip : IPAddr)
    (hwf : ∀ p ∈ snap.providers, ∀ b ∈ p.blocks, b.WellFormed) :
    snap.Contains ip = true ↔ ∃ p ∈ snap.providers, ∃ b ∈ p.blocks, b.InRange ip := by
  rw [contains_iff_key]
  constructor
  · rintro ⟨len, _, b, hb, hfam, hkey⟩
    obtain ⟨p, hp, hbp⟩ := (mem_blocks snap b).1 hb
    exact ⟨p, hp, b, hbp, inRange_of_key b ip len hfam hkey⟩
  · rintro ⟨p, hp, b, hb, hin⟩
    obtain ⟨hlen, hkey⟩ := key_of_inRange b ip (hwf p hp b hb) hin
    exact ⟨b.maskBits, hlen, b, (mem_blocks snap b).2 ⟨p, hp, hb⟩, hin.1, hkey⟩

/-- Claim C8: on a snapshot whose blocks satisfy the invariant of the data model, and for
an address that parsed, `Check` answers true, without error, exactly when the address
lies inside some block of some provider, from the network address of the block through
its last address; it answers false when the address lies outside every stored block.
The error is nil as soon as some block is stored, and is `NoDataAvailable`, with the
answer false, when none is. -/
theorem check_true_iff_inside_some_block (snap : AggregateSnapshot) (ip : IPAddr)
    (hwf : ∀ p ∈ snap.providers, ∀ b ∈ p.blocks, b.WellFormed) :
    (Check (some snap) (some ip) = (true, none) ↔
      ∃ p ∈ snap.providers, ∃ b ∈ p.blocks, b.InRange ip) ∧
    ((Check (some snap) (some ip)).1 = true ↔
      ∃ p ∈ snap.providers, ∃ b ∈ p.blocks, b.InRange ip) ∧
    ((∀ p ∈ snap.providers, ∀ b ∈ p.blocks, ¬ b.InRange ip) →
      (Check (some snap) (some ip)).1 = false) ∧
    ((∃ p ∈ snap.providers, p.blocks ≠ []) → (Check (some snap) (some ip)).2 = none) ∧
    ((∀ p ∈ snap.providers, p.blocks = []) →
      Check (some snap) (some ip) = (false, some .NoDataAvailable)) := by
  have key := contains_iff_in_some_block snap ip hwf
  have hempty : snap.blocks.isEmpty = true ↔ ∀ p ∈ snap.providers, p.blocks = [] := by
    rw [List.isEmpty_iff]
    constructor
    · intro h p hp
      cases hb : p.blocks with
      | nil => rfl
      | cons b t =>
        have : b ∈ snap.blocks := (mem_blocks snap b).2 ⟨p, hp, by rw [hb]; simp⟩
        rw [h] at this
        simp at this
    · intro h
      apply List.eq_nil_iff_forall_not_mem.2
      intro b hb
      obtain ⟨p, hp, hbp⟩ := (mem_blocks snap b).1 hb
      rw [h p hp] at hbp
      simp at hbp
  have hfst : (Check (some snap) (some ip)).1 = true ↔
      ∃ p ∈ snap.providers, ∃ b ∈ p.blocks, b.InRange ip := by
    unfold Check
    by_cases he : snap.blocks.isEmpty = true
    · simp only [he, if_true]
      constructor
      · intro h; simp at h
      · rintro ⟨p, hp, b, hb, _⟩
        rw [(hempty.1 he) p hp] at hb
        simp at hb
    · simp only [he, if_false]
      exact key
  refine ⟨?_, hfst, ?_, ?_, ?_⟩
  · constructor
    · intro h
      exact hfst.1 (by rw [h])
    · intro h
      have he : ¬ snap.blocks.isEmpty = true := by
        rw [hempty]
        obtain ⟨p, hp, b, hb, _⟩ := h
        intro hall
        rw [hall p hp] at hb
        simp at hb
      unfold Check
      simp [he, key.2 h]
  · intro hout
    cases hc : (Check (some snap) (some ip)).1 with
    | false => rfl
    | true =>
      obtain ⟨p, hp, b, hb, hin⟩ := hfst.1 hc
      exact absurd hin (hout p hp b hb)
  · rintro ⟨p, hp, hne⟩
    have he : ¬ snap.blocks.isEmpty = true := by
      rw [hempty]
      intro hall
      exact hne (hall p hp)
    unfold Check
    simp [he]
  · intro hall
    unfold Check
    simp only [hempty.2 hall, if_true]

theorem scenario_wellFormed :
    ∀ p ∈ (⟨[⟨"A", [⟨.v4, 16909056, 24⟩]⟩,
        ⟨"B", [⟨.v4, 16909056, 24⟩, ⟨.v4, 84281088, 28⟩]⟩]⟩ : AggregateSnapshot).providers,
      ∀ b ∈ p.blocks, b.WellFormed := by
  intro p hp b hb
  simp only [List.mem_cons, List.mem_singleton, List.not_mem_nil, or_false] at hp
  rcases hp with rfl | rfl
  · simp only [List.mem_singleton] at hb
    subst hb
    exact ⟨by decide, by decide, by decide⟩
  · simp only [List.mem_cons, List.mem_singleton, List.not_mem_nil, or_false] at hb
    rcases hb with rfl | rfl
    · exact ⟨by decide, by decide, by decide⟩
    · exact ⟨by decide, by decide, by decide⟩

/-- The scenario of section 8 of the spec: providers A and B both hold `1.2.3.0/24`, B also
`5.6.7.0/28`; `1.2.3.5` is found and `9.9.9.9` is not.  Evaluated besides: the last
address of `5.6.7.0/28` is found and the next one is not; in the aggregate of `10.0.0.0/8`
and `10.1.0.0/24`, `10.2.0.0` is found in the outer block; a snapshot without a block
gives `NoDataAvailable`. -/
theorem check_true_iff_inside_some_block_witness :
    Check (some ⟨[⟨"A", [⟨.v4, 16909056, 24⟩]⟩,
        ⟨"B", [⟨.v4, 16909056, 24⟩, ⟨.v4, 84281088, 28⟩]⟩]⟩) (some ⟨.v4, 16909061⟩) =
      (true, none) ∧
    (Check (some ⟨[⟨"A", [⟨.v4, 16909056, 24⟩]⟩,
        ⟨"B", [⟨.v4, 16909056, 24⟩, ⟨.v4, 84281088, 28⟩]⟩]⟩) (some ⟨.v4, 151587081⟩)).1 =
      false ∧
    Check (some ⟨[⟨"A", [⟨.v4, 16909056, 24⟩]⟩,
        ⟨"B", [⟨.v4, 16909056, 24⟩, ⟨.v4, 84281088, 28⟩]⟩]⟩) (some ⟨.v4, 84281103⟩) =
      (true, none) ∧
    Check (some ⟨[⟨"A", [⟨.v4, 16909056, 24⟩]⟩,
        ⟨"B", [⟨.v4, 16909056, 24⟩, ⟨.v4, 84281088, 28⟩]⟩]⟩) (some ⟨.v4, 84281104⟩) =
      (false, none) ∧
    Check (some ⟨[⟨"A", [⟨.v4, 167772160, 8⟩]⟩, ⟨"B", [⟨.v4, 167837696, 24⟩]⟩]⟩)
        (some ⟨.v4, 167903232⟩) = (true, none) ∧
    Check (some ⟨[⟨"A", []⟩]⟩) (some ⟨.v4, 16909061⟩) = (false, some .NoDataAvailable) := by
  refine ⟨(check_true_iff_inside_some_block _ ⟨.v4, 16909061⟩ scenario_wellFormed).1.2
      ⟨_, List.mem_cons_self _ _, _, List.mem_cons_self _ _, by decide, by decide, by decide⟩,
    (check_true_iff_inside_some_block _ ⟨.v4, 151587081⟩ scenario_wellFormed).2.2.1 ?_,
    by decide, by decide, by decide, by decide⟩
  intro p hp b hb hin
  simp only [List.mem_cons, List.mem_singleton, List.not_mem_nil, or_false] at hp
  rcases hp with rfl | rfl
  · simp only [List.mem_singleton] at hb
    subst hb
    exact absurd hin.2.2 (by decide)
  · simp only [List.mem_cons, List.mem_singleton, List.not_mem_nil, or_false] at hb
    rcases hb with rfl | rfl
    · exact absurd hin.2.2 (by decide)
    · exact absurd hin.2.2 (by decide)
